import Mathlib

/-!
Verification of the SIR epidemic simulation in
`src/corona_simulation_ris.py` (function `SIR`).

The simulation is embedded shallowly:

* networkx graphs become a node list plus a neighbor function;
* node attributes (`color`, `infected_days`, `total_infection_time`)
  become total functions `Nat → _` updated pointwise;
* `np.random` is an abstract pair of draw streams (one for the
  `int(np.random.normal(14, 3.5, 1))` duration draws, one for
  `np.random.rand(1)` uniform draws), each consumed via a counter;
* the Python `while` loop is run on explicit fuel; the embedding
  distinguishes normal completion, a `ZeroDivisionError` on
  `R / degree / total_infection_time` (constructor `crash`), a
  `KeyError` on an unknown seed node (constructor `seedError`),
  and fuel exhaustion (constructor `timeout`, an artifact of the
  embedding that disappears once termination is proved);
* `np.setdiff1d` becomes sort-of-deduplicated list difference;
* floats become rationals.
-/

namespace CoronaSIR

attribute [local semireducible] Rat.inv Rat.mul Rat.add Rat.sub Rat.ofScientific

/-- The four node colors used by the Python code:
yellow = Susceptible, red = Infected, black = Dead, blue = Recovered. -/
inductive Color where
  | yellow
  | red
  | black
  | blue
deriving DecidableEq, Fintype

/-- A contact graph: finite node list and neighbor function
(`G.nodes()` / `G.neighbors(i)` of networkx). -/
structure Graph where
  nodes : List Nat
  adj : Nat → List Nat

/-- Degree of `i`: the number of neighbors, networkx's `G.degree(i)`. -/
def Graph.degree (g : Graph) (i : Nat) : Nat := (g.adj i).length

/-- The neighbor relation is symmetric (undirected graph). -/
def Graph.Symm (g : Graph) : Prop := ∀ u v, u ∈ g.adj v → v ∈ g.adj u

/-- Every neighbor is itself a node of the graph. -/
def Graph.AdjClosed (g : Graph) : Prop := ∀ i, ∀ j ∈ g.adj i, j ∈ g.nodes

/-- The random source: `normalInt k` is the value of
`int(np.random.normal(14, 3.5, 1))` at the k-th duration draw and
`unif k` is the value of `np.random.rand(1)` at the k-th uniform draw. -/
structure RNG where
  normalInt : Nat → Int
  unif : Nat → ℚ

/-- Duration draw `max(1, int(np.random.normal(14, 3.5, 1)))` (lines 65 and 109). -/
def durationDraw (rng : RNG) (k : Nat) : Nat := (max 1 (rng.normalInt k)).toNat

/-- Pointwise update of a node-attribute function. -/
def upd {α : Type} (f : Nat → α) (i : Nat) (x : α) : Nat → α :=
  fun v => if v = i then x else f v

/-- Insert into a sorted list (helper for `np.setdiff1d`'s sorting). -/
def insertSorted (x : Nat) : List Nat → List Nat
  | [] => [x]
  | y :: ys => if x ≤ y then x :: y :: ys else y :: insertSorted x ys

/-- Insertion sort on naturals. -/
def sortNat (l : List Nat) : List Nat := l.foldr insertSorted []

/-- `np.setdiff1d(a, b)`: the sorted unique values of `a` not in `b`. -/
def setdiff1d (a b : List Nat) : List Nat :=
  sortNat ((a.filter (fun x => decide (x ∉ b))).dedup)

/-- The mutable simulation state: node attributes of `G_copy`, the
`infected` pool, the cumulative `recovered_nodes` / `dead_nodes`
lists, the per-day series `n_infected` / `n_recovered` / `n_dead`,
and the positions reached in the two random-draw streams. -/
structure SimState where
  color : Nat → Color
  infectedDays : Nat → Nat
  totalInfectionTime : Nat → Nat
  infected : List Nat
  recoveredNodes : List Nat
  deadNodes : List Nat
  nInfected : List Nat
  nRecovered : List Nat
  nDead : List Nat
  uIdx : Nat
  nIdx : Nat

/-- The state carried through one day of the `while` loop:
the simulation state plus `newly_infected`, `new_dead`,
`new_recovered`. -/
structure DayAcc where
  st : SimState
  newly : List Nat
  newDead : Nat
  newRecovered : Nat

/-- Line 94: `beta = R / degree_list.get(i) / G_copy.nodes[i]['total_infection_time']`. -/
def beta (g : Graph) (R : ℚ) (st : SimState) (i : Nat) : ℚ :=
  R / (g.degree i : ℚ) / (st.totalInfectionTime i : ℚ)

/-- Lines 102-111: one neighbor `j` of an infectious node. If `j` is
susceptible, draw a uniform; if it is below `beta`, infect `j`, record
it in `newly_infected`, and draw its infection duration. -/
def tryInfect (rng : RNG) (b : ℚ) (a : DayAcc) (j : Nat) : DayAcc :=
  if a.st.color j = Color.yellow then
    let u := rng.unif a.st.uIdx
    let st1 := { a.st with uIdx := a.st.uIdx + 1 }
    if u < b then
      let dur := durationDraw rng st1.nIdx
      let st2 := { st1 with
        color := upd st1.color j Color.red
        infectedDays := upd st1.infectedDays j dur
        totalInfectionTime := upd st1.totalInfectionTime j dur
        nIdx := st1.nIdx + 1 }
      { a with st := st2, newly := a.newly ++ [j] }
    else { a with st := st1 }
  else a

/-- Lines 121-131: the infection of `i` has run its course; draw a
uniform and with probability `death_rate` mark `i` dead, else
recovered. -/
def resolveNode (dr : ℚ) (rng : RNG) (i : Nat) (a : DayAcc) : DayAcc :=
  let u := rng.unif a.st.uIdx
  let st1 := { a.st with uIdx := a.st.uIdx + 1 }
  if u < dr then
    { a with
      st := { st1 with
        color := upd st1.color i Color.black
        deadNodes := st1.deadNodes ++ [i] }
      newDead := a.newDead + 1 }
  else
    { a with
      st := { st1 with
        color := upd st1.color i Color.blue
        recoveredNodes := st1.recoveredNodes ++ [i] }
      newRecovered := a.newRecovered + 1 }

/-- Lines 91-131: the body of `for i in infected`. Computing `beta`
divides by `degree` and by `total_infection_time`; a zero divisor is
Python's `ZeroDivisionError`, modelled as `none`. Then the neighbor
loop, the decrement of `infected_days` (read once, before the
decrement), and the resolution check against the pre-decrement
value. -/
def processNode (g : Graph) (R dr : ℚ) (rng : RNG) (a : DayAcc) (i : Nat) :
    Option DayAcc :=
  if g.degree i = 0 ∨ a.st.totalInfectionTime i = 0 then none
  else
    let b := beta g R a.st i
    let a1 := (g.adj i).foldl (tryInfect rng b) a
    let d := a1.st.infectedDays i
    let a2 :=
      if a1.st.color i = Color.red ∧ d ≠ 0 then
        { a1 with st := { a1.st with infectedDays := upd a1.st.infectedDays i (d - 1) } }
      else a1
    if a2.st.color i = Color.red ∧ d = 0 then some (resolveNode dr rng i a2)
    else some a2

/-- Lines 84-147: one iteration of the `while` loop. Process every
node of the `infected` snapshot, append the day's counts to the three
series, then rebuild the pool with the two `np.setdiff1d` calls. -/
def dayStep (g : Graph) (R dr : ℚ) (rng : RNG) (s : SimState) :
    Option SimState :=
  match s.infected.foldlM (processNode g R dr rng) ⟨s, [], 0, 0⟩ with
  | none => none
  | some a =>
    let st1 := { a.st with
      nDead := a.st.nDead ++ [a.newDead]
      nRecovered := a.st.nRecovered ++ [a.newRecovered]
      nInfected := a.st.nInfected ++ [a.newly.length] }
    let pool1 := setdiff1d (st1.infected ++ a.newly) st1.recoveredNodes
    let pool2 := setdiff1d pool1 st1.deadNodes
    some { st1 with infected := pool2 }

/-- Iterate `dayStep` a fixed number of times. -/
def stepN (g : Graph) (R dr : ℚ) (rng : RNG) : Nat → SimState → Option SimState
  | 0, s => some s
  | n + 1, s => (dayStep g R dr rng s).bind (stepN g R dr rng n)

/-- Outcome of the fueled `while` loop. -/
inductive RunOut where
  | done : SimState → RunOut
  | crash : RunOut
  | timeout : SimState → RunOut

/-- The `while len(infected) != 0` loop, on fuel. -/
def runLoop (g : Graph) (R dr : ℚ) (rng : RNG) : Nat → SimState → RunOut
  | 0, s => RunOut.timeout s
  | n + 1, s =>
    if s.infected = [] then RunOut.done s
    else
      match dayStep g R dr rng s with
      | none => RunOut.crash
      | some s' => runLoop g R dr rng n s'

/-- Lines 48-50: every node starts yellow with both day counters 0;
all bookkeeping lists empty, both random streams at position 0. -/
def initState : SimState where
  color := fun _ => Color.yellow
  infectedDays := fun _ => 0
  totalInfectionTime := fun _ => 0
  infected := []
  recoveredNodes := []
  deadNodes := []
  nInfected := []
  nRecovered := []
  nDead := []
  uIdx := 0
  nIdx := 0

/-- Lines 59-66: seed the outbreak. Each seed is first appended to
`infected`; then its attributes are set, which in Python raises
`KeyError` if the seed is not a node of the graph — modelled as
`Except.error` carrying the state at the moment of the error. -/
def seedLoop (g : Graph) (rng : RNG) : SimState → List Nat → Except SimState SimState
  | s, [] => Except.ok s
  | s, i :: rest =>
    let s1 := { s with infected := s.infected ++ [i] }
    if i ∈ g.nodes then
      let dur := durationDraw rng s1.nIdx
      let s2 := { s1 with
        color := upd s1.color i Color.red
        infectedDays := upd s1.infectedDays i dur
        totalInfectionTime := upd s1.totalInfectionTime i dur
        nIdx := s1.nIdx + 1 }
      seedLoop g rng s2 rest
    else Except.error s1

/-- The six return values of `SIR` (line 155). -/
structure SIRReturn where
  n_infected : List Nat
  n_dead : List Nat
  n_recovered : List Nat
  dead_nodes : List Nat
  recovered_nodes : List Nat
  uninfected_nodes : List Nat
deriving DecidableEq

/-- Lines 151-155: package the results; `uninfected_nodes` is the
double `np.setdiff1d` of the node list against recovered and dead. -/
def mkReturn (g : Graph) (s : SimState) : SIRReturn where
  n_infected := s.nInfected
  n_dead := s.nDead
  n_recovered := s.nRecovered
  dead_nodes := s.deadNodes
  recovered_nodes := s.recoveredNodes
  uninfected_nodes := setdiff1d (setdiff1d g.nodes s.recoveredNodes) s.deadNodes

/-- Outcome of a whole `SIR` call. -/
inductive SIROut where
  | seedError : SimState → SIROut
  | crash : SIROut
  | timeout : SimState → SIROut
  | done : SIRReturn → SIROut

/-- The function `SIR(G, start_node, save_location, R, death_rate)`
(line 42), minus the figure saving, on explicit fuel: seed the
outbreak, initialize `n_infected = [len(infected)]`, run the day loop,
package the results. -/
def SIR (g : Graph) (start_node : List Nat) (R death_rate : ℚ) (rng : RNG)
    (fuel : Nat) : SIROut :=
  match seedLoop g rng initState start_node with
  | Except.error s => SIROut.seedError s
  | Except.ok s =>
    let s1 := { s with nInfected := [s.infected.length] }
    match runLoop g R death_rate rng fuel s1 with
    | RunOut.done s2 => SIROut.done (mkReturn g s2)
    | RunOut.crash => SIROut.crash
    | RunOut.timeout s2 => SIROut.timeout s2

/-- Observe only the returned lists of a completed run. -/
def SIROut.retOf : SIROut → Option SIRReturn
  | SIROut.done r => some r
  | _ => none

/-- Did the run abort with a `ZeroDivisionError`? -/
def SIROut.isCrash : SIROut → Bool
  | SIROut.crash => true
  | _ => false

/-- Observe a node's color in the state at a seeding `KeyError`. -/
def SIROut.errColor : SIROut → Nat → Option Color
  | SIROut.seedError s, v => some (s.color v)
  | _, _ => none

/-- The forward order on node states: Susceptible may become Infected,
Infected may become Recovered or Dead, Recovered and Dead are
terminal. -/
def colorLe (c c' : Color) : Prop :=
  c = c' ∨ (c = Color.yellow ∧ c' ≠ Color.yellow) ∨
    (c = Color.red ∧ (c' = Color.blue ∨ c' = Color.black))

instance (c c' : Color) : Decidable (colorLe c c') := by
  unfold colorLe; infer_instance

/-- Well-formedness of a day-boundary state: the pool has no
duplicates, the pool is exactly the red nodes, the recovered and dead
lists are exactly the blue and black nodes, and every pool member has
a positive total infection time. -/
def WF (s : SimState) : Prop :=
  s.infected.Nodup ∧
  (∀ v, v ∈ s.infected ↔ s.color v = Color.red) ∧
  (∀ v, v ∈ s.recoveredNodes ↔ s.color v = Color.blue) ∧
  (∀ v, v ∈ s.deadNodes ↔ s.color v = Color.black) ∧
  (∀ v ∈ s.infected, 1 ≤ s.totalInfectionTime v)

/-- Every pool member has at least one neighbor. -/
def DegOK (g : Graph) (s : SimState) : Prop :=
  ∀ v ∈ s.infected, 1 ≤ g.degree v

/-- Mid-day invariant on the accumulator: recovered and dead lists
track blue and black exactly, and every node infected today is red
with a positive duration and a positive degree. -/
def AccInv (g : Graph) (a : DayAcc) : Prop :=
  (∀ v, v ∈ a.st.recoveredNodes ↔ a.st.color v = Color.blue) ∧
  (∀ v, v ∈ a.st.deadNodes ↔ a.st.color v = Color.black) ∧
  (∀ v ∈ a.newly, a.st.color v = Color.red) ∧
  (∀ v ∈ a.newly, 1 ≤ a.st.totalInfectionTime v) ∧
  (∀ v ∈ a.newly, 1 ≤ g.degree v)

/-- Evolution of the accumulator across the neighbor loop of one
infectious node `i`: colors move only yellow-to-red, non-susceptible
nodes keep all attributes, nodes infected now were susceptible
neighbors of `i` and are recorded in `newly`, and all bookkeeping
lists are untouched. -/
structure NbRel (g : Graph) (i : Nat) (a a' : DayAcc) : Prop where
  frameCol : ∀ v, a.st.color v ≠ Color.yellow →
    a'.st.color v = a.st.color v ∧ a'.st.infectedDays v = a.st.infectedDays v ∧
      a'.st.totalInfectionTime v = a.st.totalInfectionTime v
  yellowStep : ∀ v, a.st.color v = Color.yellow →
    a'.st.color v = Color.yellow ∨ a'.st.color v = Color.red
  newlyExt : ∃ ns, a'.newly = a.newly ++ ns ∧
    ∀ v ∈ ns, a.st.color v = Color.yellow ∧ v ∈ g.adj i
  newlyMem : ∀ v, a.st.color v = Color.yellow → a'.st.color v = Color.red →
    v ∈ a'.newly
  lists : a'.st.infected = a.st.infected ∧
    a'.st.recoveredNodes = a.st.recoveredNodes ∧
    a'.st.deadNodes = a.st.deadNodes ∧
    a'.st.nInfected = a.st.nInfected ∧
    a'.st.nRecovered = a.st.nRecovered ∧
    a'.st.nDead = a.st.nDead
  counts : a'.newDead = a.newDead ∧ a'.newRecovered = a.newRecovered

/-- Evolution of the accumulator across the processing of a list `l`
of pool members: colors move only forward, nodes that are neither
susceptible nor in `l` keep all attributes, every node infected today
was a susceptible neighbor of some member of `l`, and the pool
snapshot and the three per-day series are untouched. -/
structure PoolRel (g : Graph) (l : List Nat) (a a' : DayAcc) : Prop where
  mono : ∀ v, colorLe (a.st.color v) (a'.st.color v)
  frameOut : ∀ v, a.st.color v ≠ Color.yellow → v ∉ l →
    a'.st.color v = a.st.color v ∧ a'.st.infectedDays v = a.st.infectedDays v ∧
      a'.st.totalInfectionTime v = a.st.totalInfectionTime v
  newlyExt : ∃ ns, a'.newly = a.newly ++ ns ∧
    ∀ v ∈ ns, a.st.color v = Color.yellow ∧ ∃ i ∈ l, v ∈ g.adj i
  newlyMem : ∀ v, a.st.color v = Color.yellow → a'.st.color v = Color.red →
    v ∈ a'.newly
  pools : a'.st.infected = a.st.infected
  series : a'.st.nInfected = a.st.nInfected ∧
    a'.st.nRecovered = a.st.nRecovered ∧ a'.st.nDead = a.st.nDead

/-- Number of still-susceptible graph nodes (termination measure,
major component). -/
def ycount (g : Graph) (s : SimState) : Nat :=
  (g.nodes.filter (fun v => decide (s.color v = Color.yellow))).length

/-- Sum of the remaining infection days over the pool, one extra unit
per pool member (termination measure, minor component). -/
def poolMeasure (s : SimState) : Nat :=
  (s.infected.map (fun v => s.infectedDays v + 1)).sum

/-- The state entering the `while` loop: the seeded state after line
68 sets `n_infected = [len(infected)]`; `none` when seeding raised
`KeyError`. -/
def seededState (g : Graph) (rng : RNG) (start : List Nat) : Option SimState :=
  match seedLoop g rng initState start with
  | Except.ok s => some { s with nInfected := [s.infected.length] }
  | Except.error _ => none

/-- Example two-node path graph with the single edge `0 -- 1`. -/
def pathG : Graph :=
  ⟨[0, 1], fun v => if v = 0 then [1] else if v = 1 then [0] else []⟩

/-- Example graph with the edge `0 -- 1` plus the isolated node `2`. -/
def isoG : Graph :=
  ⟨[0, 1, 2], fun v => if v = 0 then [1] else if v = 1 then [0] else []⟩

/-- Example star: node `0` adjacent to `1` and `2`, so `0` has twice
its degree in `pathG`. -/
def starG : Graph :=
  ⟨[0, 1, 2], fun v =>
    if v = 0 then [1, 2] else if v = 1 then [0] else if v = 2 then [0] else []⟩

/-- Example random source: every duration draw is 1 and every uniform
draw is 1/2. -/
def oneRng : RNG := ⟨fun _ => 1, fun _ => 1/2⟩

/-- A second copy of the same draw streams, for the determinism
witness. -/
def twinRng : RNG := ⟨fun _ => 1, fun _ => 1/2⟩

/-- Example well-formed day-boundary state on the path graph: node 0
is infected with one day remaining (duration 1), node 1 susceptible. -/
def wState : SimState where
  color := upd (fun _ => Color.yellow) 0 Color.red
  infectedDays := upd (fun _ => 0) 0 1
  totalInfectionTime := upd (fun _ => 0) 0 1
  infected := [0]
  recoveredNodes := []
  deadNodes := []
  nInfected := [1]
  nRecovered := []
  nDead := []
  uIdx := 0
  nIdx := 1

theorem upd_same {α : Type} (f : Nat → α) (i : Nat) (x : α) : upd f i x i = x := by
  simp [upd]

theorem upd_ne {α : Type} (f : Nat → α) {i v : Nat} (x : α) (h : v ≠ i) :
    upd f i x v = f v := by
  simp [upd, h]

theorem one_le_durationDraw (rng : RNG) (k : Nat) : 1 ≤ durationDraw rng k := by
  unfold durationDraw
  have h : (1 : Int) ≤ max 1 (rng.normalInt k) := le_max_left _ _
  omega

theorem colorLe_refl (c : Color) : colorLe c c := Or.inl rfl

theorem colorLe_trans {a b c : Color} (h1 : colorLe a b) (h2 : colorLe b c) :
    colorLe a c := by
  revert a b c; decide

theorem colorLe_yellow_right {c : Color} (h : colorLe c Color.yellow) :
    c = Color.yellow := by
  revert c; decide

theorem colorLe_blue_left {c : Color} (h : colorLe Color.blue c) :
    c = Color.blue := by
  revert c; decide

theorem colorLe_black_left {c : Color} (h : colorLe Color.black c) :
    c = Color.black := by
  revert c; decide

theorem colorLe_of_yellow (c : Color) : colorLe Color.yellow c := by
  revert c; decide

theorem insertSorted_perm (x : Nat) (l : List Nat) :
    List.Perm (insertSorted x l) (x :: l) := by
  induction l with
  | nil => simp [insertSorted]
  | cons y ys ih =>
    unfold insertSorted
    by_cases h : x ≤ y
    · simp [h]
    · simp only [h, if_false]
      exact List.Perm.trans (List.Perm.cons y ih) (List.Perm.swap x y ys)

theorem sortNat_perm (l : List Nat) : List.Perm (sortNat l) l := by
  induction l with
  | nil => simp [sortNat]
  | cons x xs ih =>
    have h1 : sortNat (x :: xs) = insertSorted x (sortNat xs) := rfl
    rw [h1]
    exact List.Perm.trans (insertSorted_perm x (sortNat xs)) (List.Perm.cons x ih)

theorem mem_sortNat {x : Nat} {l : List Nat} : x ∈ sortNat l ↔ x ∈ l :=
  (sortNat_perm l).mem_iff

theorem nodup_sortNat {l : List Nat} (h : l.Nodup) : (sortNat l).Nodup :=
  ((sortNat_perm l).nodup_iff).mpr h

theorem mem_setdiff1d {x : Nat} {a b : List Nat} :
    x ∈ setdiff1d a b ↔ x ∈ a ∧ x ∉ b := by
  unfold setdiff1d
  rw [mem_sortNat, List.mem_dedup, List.mem_filter]
  simp

theorem nodup_setdiff1d (a b : List Nat) : (setdiff1d a b).Nodup :=
  nodup_sortNat (List.nodup_dedup _)

theorem foldlM_none {α β : Type} (f : β → α → Option β) {i : α} :
    ∀ (l : List α), i ∈ l → (∀ b, f b i = none) → ∀ a, l.foldlM f a = none := by
  intro l
  induction l with
  | nil => intro h; exact absurd h (List.not_mem_nil i)
  | cons x xs ih =>
    intro hmem hf a
    rw [List.foldlM_cons]
    rcases List.mem_cons.mp hmem with h | h
    · subst h; rw [hf a]; rfl
    · cases hx : f a x with
      | none => rfl
      | some b => simpa [hx] using ih h hf b

theorem foldlM_some_of_each {α β : Type} (f : β → α → Option β) :
    ∀ (l : List α) (a : β), (∀ b, ∀ x ∈ l, f b x ≠ none) →
      ∃ b, l.foldlM f a = some b := by
  intro l
  induction l with
  | nil => intro a _; exact ⟨a, rfl⟩
  | cons x xs ih =>
    intro a h
    rw [List.foldlM_cons]
    cases hx : f a x with
    | none => exact absurd hx (h a x (List.mem_cons_self x xs))
    | some b =>
      rcases ih b (fun b' y hy => h b' y (List.mem_cons_of_mem x hy)) with ⟨c, hc⟩
      exact ⟨c, by simpa [hx] using hc⟩

theorem length_filter_le_of_imp (p q : Nat → Bool) :
    ∀ (l : List Nat), (∀ x ∈ l, q x = true → p x = true) →
      (l.filter q).length ≤ (l.filter p).length := by
  intro l
  induction l with
  | nil => intro _; simp
  | cons x xs ih =>
    intro h
    have hxs := ih (fun y hy => h y (List.mem_cons_of_mem x hy))
    by_cases hq : q x = true
    · have hp : p x = true := h x (List.mem_cons_self x xs) hq
      simp [List.filter_cons, hq, hp]; omega
    · simp only [List.filter_cons]
      by_cases hp : p x = true
      · simp [hq, hp]; omega
      · simp [hq, hp]; omega

theorem length_filter_lt_of_witness (p q : Nat → Bool) :
    ∀ (l : List Nat), (∀ x ∈ l, q x = true → p x = true) →
      ∀ v ∈ l, p v = true → q v = false →
      (l.filter q).length < (l.filter p).length := by
  intro l
  induction l with
  | nil => intro _ v hv; exact absurd hv (List.not_mem_nil v)
  | cons x xs ih =>
    intro h v hv hp hq
    have hxs_le := length_filter_le_of_imp p q xs
      (fun y hy => h y (List.mem_cons_of_mem x hy))
    rcases List.mem_cons.mp hv with rfl | hvtail
    · have hqx : q v = false := hq
      simp [List.filter_cons, hp, hqx]
      omega
    · have hlt := ih (fun y hy => h y (List.mem_cons_of_mem x hy)) v hvtail hp hq
      by_cases hqx : q x = true
      · have hpx : p x = true := h x (List.mem_cons_self x xs) hqx
        simp [List.filter_cons, hqx, hpx]; omega
      · simp only [List.filter_cons]
        by_cases hpx : p x = true
        · simp [hqx, hpx]; omega
        · simp [hqx, hpx]; omega

theorem sum_map_le_of_subset (f : Nat → Nat) :
    ∀ (l1 l2 : List Nat), l1.Nodup → (∀ x ∈ l1, x ∈ l2) →
      (l1.map f).sum ≤ (l2.map f).sum := by
  intro l1
  induction l1 with
  | nil => intro l2 _ _; simp
  | cons x xs ih =>
    intro l2 hnd hsub
    have hx : x ∈ l2 := hsub x (List.mem_cons_self x xs)
    have hperm : List.Perm l2 (x :: l2.erase x) := List.perm_cons_erase hx
    have hsum2 : (l2.map f).sum = f x + ((l2.erase x).map f).sum := by
      rw [List.Perm.sum_eq (List.Perm.map f hperm)]
      simp
    have hnd' := List.nodup_cons.mp hnd
    have hsub' : ∀ y ∈ xs, y ∈ l2.erase x := by
      intro y hy
      refine List.mem_erase_of_ne ?_ |>.mpr (hsub y (List.mem_cons_of_mem x hy))
      intro hyx; exact hnd'.1 (hyx ▸ hy)
    have := ih (l2.erase x) hnd'.2 hsub'
    rw [hsum2]; simp; omega

theorem sum_map_succ (f : Nat → Nat) :
    ∀ (l : List Nat), (l.map (fun x => f x + 1)).sum = (l.map f).sum + l.length := by
  intro l
  induction l with
  | nil => simp
  | cons x xs ih => simp [ih]; omega

theorem tryInfect_not_yellow {rng : RNG} {b : ℚ} {a : DayAcc} {j : Nat}
    (h : a.st.color j ≠ Color.yellow) : tryInfect rng b a j = a := by
  simp [tryInfect, h]

theorem tryInfect_miss {rng : RNG} {b : ℚ} {a : DayAcc} {j : Nat}
    (h : a.st.color j = Color.yellow) (hu : ¬ rng.unif a.st.uIdx < b) :
    tryInfect rng b a j = { a with st := { a.st with uIdx := a.st.uIdx + 1 } } := by
  simp [tryInfect, h, hu]

theorem tryInfect_hit {rng : RNG} {b : ℚ} {a : DayAcc} {j : Nat}
    (h : a.st.color j = Color.yellow) (hu : rng.unif a.st.uIdx < b) :
    tryInfect rng b a j =
      { a with
        st := { a.st with
          color := upd a.st.color j Color.red
          infectedDays := upd a.st.infectedDays j (durationDraw rng a.st.nIdx)
          totalInfectionTime := upd a.st.totalInfectionTime j (durationDraw rng a.st.nIdx)
          uIdx := a.st.uIdx + 1
          nIdx := a.st.nIdx + 1 }
        newly := a.newly ++ [j] } := by
  simp [tryInfect, h, hu]

theorem nbRel_refl (g : Graph) (i : Nat) (a : DayAcc) : NbRel g i a a := by
  refine ⟨fun v _ => ⟨rfl, rfl, rfl⟩, fun v h => Or.inl h, ⟨[], by simp, by simp⟩,
    ?_, ⟨rfl, rfl, rfl, rfl, rfl, rfl⟩, ⟨rfl, rfl⟩⟩
  intro v hy hr
  rw [hy] at hr
  exact absurd hr (by decide)

theorem nbRel_trans {g : Graph} {i : Nat} {a a1 a2 : DayAcc}
    (h1 : NbRel g i a a1) (h2 : NbRel g i a1 a2) : NbRel g i a a2 := by
  refine ⟨?_, ?_, ?_, ?_, ?_, ?_⟩
  · intro v hv
    have e1 := h1.frameCol v hv
    have hv1 : a1.st.color v ≠ Color.yellow := by rw [e1.1]; exact hv
    have e2 := h2.frameCol v hv1
    exact ⟨e2.1.trans e1.1, e2.2.1.trans e1.2.1, e2.2.2.trans e1.2.2⟩
  · intro v hv
    rcases h1.yellowStep v hv with h | h
    · exact h2.yellowStep v h
    · right
      have := h2.frameCol v (by rw [h]; decide)
      rw [this.1, h]
  · rcases h1.newlyExt with ⟨ns1, e1, p1⟩
    rcases h2.newlyExt with ⟨ns2, e2, p2⟩
    refine ⟨ns1 ++ ns2, by rw [e2, e1, List.append_assoc], ?_⟩
    intro v hv
    rcases List.mem_append.mp hv with h | h
    · exact p1 v h
    · have hy1 := (p2 v h).1
      constructor
      · by_cases hy : a.st.color v = Color.yellow
        · exact hy
        · exact absurd ((h1.frameCol v hy).1 ▸ hy1) hy
      · exact (p2 v h).2
  · intro v hy hr
    rcases h1.yellowStep v hy with h | h
    · exact h2.newlyMem v h hr
    · rcases h2.newlyExt with ⟨ns2, e2, _⟩
      rw [e2]
      exact List.mem_append_left _ (h1.newlyMem v hy h)
  · obtain ⟨l1a, l1b, l1c, l1d, l1e, l1f⟩ := h1.lists
    obtain ⟨l2a, l2b, l2c, l2d, l2e, l2f⟩ := h2.lists
    exact ⟨l2a.trans l1a, l2b.trans l1b, l2c.trans l1c, l2d.trans l1d,
      l2e.trans l1e, l2f.trans l1f⟩
  · exact ⟨h2.counts.1.trans h1.counts.1, h2.counts.2.trans h1.counts.2⟩

theorem tryInfect_nbRel (g : Graph) (rng : RNG) (b : ℚ) (i j : Nat) (a : DayAcc)
    (hj : j ∈ g.adj i) : NbRel g i a (tryInfect rng b a j) := by
  by_cases hy : a.st.color j = Color.yellow
  · by_cases hu : rng.unif a.st.uIdx < b
    · rw [tryInfect_hit hy hu]
      refine ⟨?_, ?_, ?_, ?_, ⟨rfl, rfl, rfl, rfl, rfl, rfl⟩, ⟨rfl, rfl⟩⟩
      · intro v hv
        have hvj : v ≠ j := fun h => hv (h ▸ hy)
        exact ⟨upd_ne _ _ hvj, upd_ne _ _ hvj, upd_ne _ _ hvj⟩
      · intro v hv
        by_cases hvj : v = j
        · subst hvj; right; exact upd_same _ _ _
        · left
          show upd a.st.color j Color.red v = Color.yellow
          rw [upd_ne _ _ hvj]; exact hv
      · exact ⟨[j], rfl, by simpa using ⟨hy, hj⟩⟩
      · intro v hv hr
        by_cases hvj : v = j
        · subst hvj; simp
        · have hr' : upd a.st.color j Color.red v = Color.red := hr
          rw [upd_ne _ _ hvj, hv] at hr'
          exact absurd hr' (by decide)
    · rw [tryInfect_miss hy hu]
      refine ⟨fun v _ => ⟨rfl, rfl, rfl⟩, fun v h => Or.inl h,
        ⟨[], by simp, by simp⟩, ?_, ⟨rfl, rfl, rfl, rfl, rfl, rfl⟩, ⟨rfl, rfl⟩⟩
      intro v hv hr
      rw [hv] at hr
      exact absurd hr (by decide)
  · rw [tryInfect_not_yellow hy]
    exact nbRel_refl g i a

theorem tryInfect_accInv {g : Graph} {rng : RNG} {b : ℚ} {i j : Nat} {a : DayAcc}
    (hS : g.Symm) (hj : j ∈ g.adj i) (hA : AccInv g a) :
    AccInv g (tryInfect rng b a j) := by
  obtain ⟨hrec, hdead, hnewred, hnewtot, hnewdeg⟩ := hA
  by_cases hy : a.st.color j = Color.yellow
  · by_cases hu : rng.unif a.st.uIdx < b
    · rw [tryInfect_hit hy hu]
      refine ⟨?_, ?_, ?_, ?_, ?_⟩
      · intro v
        by_cases hvj : v = j
        · subst hvj
          simp only [upd_same]
          constructor
          · intro hv; exact absurd ((hrec v).mp hv) (by rw [hy]; decide)
          · intro hv; exact absurd hv (by decide)
        · simpa [upd_ne _ _ hvj] using hrec v
      · intro v
        by_cases hvj : v = j
        · subst hvj
          simp only [upd_same]
          constructor
          · intro hv; exact absurd ((hdead v).mp hv) (by rw [hy]; decide)
          · intro hv; exact absurd hv (by decide)
        · simpa [upd_ne _ _ hvj] using hdead v
      · intro v hv
        simp only [List.mem_append, List.mem_singleton] at hv
        rcases hv with hv | rfl
        · have hred := hnewred v hv
          have hvj : v ≠ j := fun h => by rw [h, hy] at hred; exact absurd hred (by decide)
          show upd a.st.color j Color.red v = Color.red
          rw [upd_ne _ _ hvj]
          exact hred
        · exact upd_same _ _ _
      · intro v hv
        simp only [List.mem_append, List.mem_singleton] at hv
        rcases hv with hv | rfl
        · have hred := hnewred v hv
          have hvj : v ≠ j := fun h => by rw [h, hy] at hred; exact absurd hred (by decide)
          show 1 ≤ upd a.st.totalInfectionTime j (durationDraw rng a.st.nIdx) v
          rw [upd_ne _ _ hvj]
          exact hnewtot v hv
        · show 1 ≤ upd a.st.totalInfectionTime v (durationDraw rng a.st.nIdx) v
          rw [upd_same]
          exact one_le_durationDraw rng _
      · intro v hv
        simp only [List.mem_append, List.mem_singleton] at hv
        rcases hv with hv | rfl
        · exact hnewdeg v hv
        · have : i ∈ g.adj v := hS v i hj
          have : g.adj v ≠ [] := List.ne_nil_of_mem this
          have := List.length_pos.mpr this
          unfold Graph.degree
          omega
    · rw [tryInfect_miss hy hu]
      exact ⟨hrec, hdead, hnewred, hnewtot, hnewdeg⟩
  · rw [tryInfect_not_yellow hy]
    exact ⟨hrec, hdead, hnewred, hnewtot, hnewdeg⟩

theorem nbFold_rel (g : Graph) (rng : RNG) (b : ℚ) (i : Nat) :
    ∀ (l : List Nat) (a : DayAcc), (∀ j ∈ l, j ∈ g.adj i) →
      NbRel g i a (l.foldl (tryInfect rng b) a) := by
  intro l
  induction l with
  | nil => intro a _; exact nbRel_refl g i a
  | cons j t ih =>
    intro a h
    rw [List.foldl_cons]
    exact nbRel_trans
      (tryInfect_nbRel g rng b i j a (h j (List.mem_cons_self j t)))
      (ih _ (fun x hx => h x (List.mem_cons_of_mem j hx)))

theorem nbFold_accInv (g : Graph) (rng : RNG) (b : ℚ) (i : Nat) (hS : g.Symm) :
    ∀ (l : List Nat) (a : DayAcc), (∀ j ∈ l, j ∈ g.adj i) → AccInv g a →
      AccInv g (l.foldl (tryInfect rng b) a) := by
  intro l
  induction l with
  | nil => intro a _ hA; exact hA
  | cons j t ih =>
    intro a h hA
    rw [List.foldl_cons]
    exact ih _ (fun x hx => h x (List.mem_cons_of_mem j hx))
      (tryInfect_accInv hS (h j (List.mem_cons_self j t)) hA)

theorem resolveNode_dead {dr : ℚ} {rng : RNG} {i : Nat} {a : DayAcc}
    (hu : rng.unif a.st.uIdx < dr) :
    resolveNode dr rng i a =
      { a with
        st := { a.st with
          color := upd a.st.color i Color.black
          deadNodes := a.st.deadNodes ++ [i]
          uIdx := a.st.uIdx + 1 }
        newDead := a.newDead + 1 } := by
  simp [resolveNode, hu]

theorem resolveNode_live {dr : ℚ} {rng : RNG} {i : Nat} {a : DayAcc}
    (hu : ¬ rng.unif a.st.uIdx < dr) :
    resolveNode dr rng i a =
      { a with
        st := { a.st with
          color := upd a.st.color i Color.blue
          recoveredNodes := a.st.recoveredNodes ++ [i]
          uIdx := a.st.uIdx + 1 }
        newRecovered := a.newRecovered + 1 } := by
  simp [resolveNode, hu]

theorem resolveNode_ok {g : Graph} {dr : ℚ} {rng : RNG} {i : Nat} {a : DayAcc}
    (hA : AccInv g a) (hred : a.st.color i = Color.red) (hnin : i ∉ a.newly) :
    AccInv g (resolveNode dr rng i a) ∧
    ((resolveNode dr rng i a).st.color i = Color.blue ∨
      (resolveNode dr rng i a).st.color i = Color.black) ∧
    (∀ v, v ≠ i → (resolveNode dr rng i a).st.color v = a.st.color v) ∧
    (∀ v, (resolveNode dr rng i a).st.infectedDays v = a.st.infectedDays v) ∧
    (∀ v, (resolveNode dr rng i a).st.totalInfectionTime v = a.st.totalInfectionTime v) ∧
    (resolveNode dr rng i a).newly = a.newly ∧
    (resolveNode dr rng i a).st.infected = a.st.infected ∧
    (resolveNode dr rng i a).st.nInfected = a.st.nInfected ∧
    (resolveNode dr rng i a).st.nRecovered = a.st.nRecovered ∧
    (resolveNode dr rng i a).st.nDead = a.st.nDead := by
  obtain ⟨hrec, hdead, hnewred, hnewtot, hnewdeg⟩ := hA
  by_cases hu : rng.unif a.st.uIdx < dr
  · rw [resolveNode_dead hu]
    refine ⟨⟨?_, ?_, ?_, ?_, ?_⟩, ?_, ?_, fun v => rfl, fun v => rfl,
      rfl, rfl, rfl, rfl, rfl⟩
    · intro v
      show v ∈ a.st.recoveredNodes ↔ upd a.st.color i Color.black v = Color.blue
      by_cases hvi : v = i
      · subst hvi
        rw [upd_same]
        constructor
        · intro hv
          exact absurd ((hrec v).mp hv) (by rw [hred]; decide)
        · intro hv
          exact absurd hv (by decide)
      · rw [upd_ne _ _ hvi]
        exact hrec v
    · intro v
      show v ∈ a.st.deadNodes ++ [i] ↔ upd a.st.color i Color.black v = Color.black
      by_cases hvi : v = i
      · subst hvi
        rw [upd_same]
        simp
      · rw [upd_ne _ _ hvi]
        simp only [List.mem_append, List.mem_singleton, hvi, or_false]
        exact hdead v
    · intro v hv
      have hvi : v ≠ i := fun h => hnin (h ▸ hv)
      show upd a.st.color i Color.black v = Color.red
      rw [upd_ne _ _ hvi]
      exact hnewred v hv
    · intro v hv
      exact hnewtot v hv
    · intro v hv
      exact hnewdeg v hv
    · right
      exact upd_same _ _ _
    · intro v hvi
      show upd a.st.color i Color.black v = a.st.color v
      exact upd_ne _ _ hvi
  · rw [resolveNode_live hu]
    refine ⟨⟨?_, ?_, ?_, ?_, ?_⟩, ?_, ?_, fun v => rfl, fun v => rfl,
      rfl, rfl, rfl, rfl, rfl⟩
    · intro v
      show v ∈ a.st.recoveredNodes ++ [i] ↔ upd a.st.color i Color.blue v = Color.blue
      by_cases hvi : v = i
      · subst hvi
        rw [upd_same]
        simp
      · rw [upd_ne _ _ hvi]
        simp only [List.mem_append, List.mem_singleton, hvi, or_false]
        exact hrec v
    · intro v
      show v ∈ a.st.deadNodes ↔ upd a.st.color i Color.blue v = Color.black
      by_cases hvi : v = i
      · subst hvi
        rw [upd_same]
        constructor
        · intro hv
          exact absurd ((hdead v).mp hv) (by rw [hred]; decide)
        · intro hv
          exact absurd hv (by decide)
      · rw [upd_ne _ _ hvi]
        exact hdead v
    · intro v hv
      have hvi : v ≠ i := fun h => hnin (h ▸ hv)
      show upd a.st.color i Color.blue v = Color.red
      rw [upd_ne _ _ hvi]
      exact hnewred v hv
    · intro v hv
      exact hnewtot v hv
    · intro v hv
      exact hnewdeg v hv
    · left
      exact upd_same _ _ _
    · intro v hvi
      show upd a.st.color i Color.blue v = a.st.color v
      exact upd_ne _ _ hvi

theorem processNode_eq_resolve (g : Graph) (R dr : ℚ) (rng : RNG) (i : Nat) (a : DayAcc)
    (hdeg : 1 ≤ g.degree i) (htot : 1 ≤ a.st.totalInfectionTime i)
    (hred1 : ((g.adj i).foldl (tryInfect rng (beta g R a.st i)) a).st.color i = Color.red)
    (hd : ((g.adj i).foldl (tryInfect rng (beta g R a.st i)) a).st.infectedDays i = 0) :
    processNode g R dr rng a i =
      some (resolveNode dr rng i ((g.adj i).foldl (tryInfect rng (beta g R a.st i)) a)) := by
  have hcond : ¬ (g.degree i = 0 ∨ a.st.totalInfectionTime i = 0) := by omega
  simp only [processNode, if_neg hcond, hd, hred1]
  simp
  intro h
  exact absurd hred1 h

theorem processNode_eq_decr (g : Graph) (R dr : ℚ) (rng : RNG) (i : Nat) (a : DayAcc)
    (hdeg : 1 ≤ g.degree i) (htot : 1 ≤ a.st.totalInfectionTime i)
    (hred1 : ((g.adj i).foldl (tryInfect rng (beta g R a.st i)) a).st.color i = Color.red)
    (hd : ((g.adj i).foldl (tryInfect rng (beta g R a.st i)) a).st.infectedDays i ≠ 0) :
    processNode g R dr rng a i =
      some { (g.adj i).foldl (tryInfect rng (beta g R a.st i)) a with
        st := { ((g.adj i).foldl (tryInfect rng (beta g R a.st i)) a).st with
          infectedDays :=
            upd ((g.adj i).foldl (tryInfect rng (beta g R a.st i)) a).st.infectedDays i
              (((g.adj i).foldl (tryInfect rng (beta g R a.st i)) a).st.infectedDays i - 1) } } := by
  have hcond : ¬ (g.degree i = 0 ∨ a.st.totalInfectionTime i = 0) := by omega
  simp only [processNode, if_neg hcond, hd, hred1]
  simp
  intro h
  exact absurd h hd

theorem processNode_ok (g : Graph) (R dr : ℚ) (rng : RNG) (i : Nat) (a : DayAcc)
    (hS : g.Symm) (hA : AccInv g a) (hred : a.st.color i = Color.red)
    (htot : 1 ≤ a.st.totalInfectionTime i) (hdeg : 1 ≤ g.degree i)
    (hnin : i ∉ a.newly) :
    ∃ a', processNode g R dr rng a i = some a' ∧
      AccInv g a' ∧ PoolRel g [i] a a' ∧
      (∀ v, a.st.color v = Color.yellow →
        a'.st.color v = Color.yellow ∨ (a'.st.color v = Color.red ∧ v ∈ a'.newly)) ∧
      (a.st.infectedDays i ≠ 0 →
        a'.st.color i = Color.red ∧ a'.st.infectedDays i = a.st.infectedDays i - 1 ∧
          a'.st.totalInfectionTime i = a.st.totalInfectionTime i) ∧
      (a.st.infectedDays i = 0 →
        (a'.st.color i = Color.blue ∨ a'.st.color i = Color.black) ∧
          a'.st.totalInfectionTime i = a.st.totalInfectionTime i) := by
  have nb : NbRel g i a ((g.adj i).foldl (tryInfect rng (beta g R a.st i)) a) :=
    nbFold_rel g rng (beta g R a.st i) i (g.adj i) a (fun j hj => hj)
  have hA1 : AccInv g ((g.adj i).foldl (tryInfect rng (beta g R a.st i)) a) :=
    nbFold_accInv g rng (beta g R a.st i) i hS (g.adj i) a (fun j hj => hj) hA
  set A := (g.adj i).foldl (tryInfect rng (beta g R a.st i)) a with hADef
  have hfr := nb.frameCol i (by rw [hred]; decide)
  have hred1 : A.st.color i = Color.red := by rw [hfr.1, hred]
  have hdays1 : A.st.infectedDays i = a.st.infectedDays i := hfr.2.1
  have htot1 : A.st.totalInfectionTime i = a.st.totalInfectionTime i := hfr.2.2
  have hnin1 : i ∉ A.newly := by
    rcases nb.newlyExt with ⟨ns, hns, hprop⟩
    rw [hns]
    intro hmem
    rcases List.mem_append.mp hmem with h | h
    · exact hnin h
    · exact absurd (hprop i h).1 (by rw [hred]; decide)
  have monoA : ∀ v, colorLe (a.st.color v) (A.st.color v) := by
    intro v
    by_cases hy : a.st.color v = Color.yellow
    · rw [hy]; exact colorLe_of_yellow _
    · rw [(nb.frameCol v hy).1]; exact colorLe_refl _
  by_cases hd : a.st.infectedDays i = 0
  · have hd1 : A.st.infectedDays i = 0 := by rw [hdays1, hd]
    have hstep : processNode g R dr rng a i = some (resolveNode dr rng i A) := by
      have h1 : ((g.adj i).foldl (tryInfect rng (beta g R a.st i)) a).st.color i
          = Color.red := by rw [← hADef]; exact hred1
      have h2 : ((g.adj i).foldl (tryInfect rng (beta g R a.st i)) a).st.infectedDays i
          = 0 := by rw [← hADef]; exact hd1
      rw [hADef]
      exact processNode_eq_resolve g R dr rng i a hdeg htot h1 h2
    obtain ⟨hAr, hcol, hframeR, hdaysR, htotR, hnewR, hpoolR, hnIR, hnRR, hnDR⟩ :=
      @resolveNode_ok g dr rng i A hA1 hred1 hnin1
    refine ⟨resolveNode dr rng i A, hstep, hAr, ⟨?_, ?_, ?_, ?_, ?_, ?_⟩, ?_, ?_, ?_⟩
    · intro v
      by_cases hvi : v = i
      · subst hvi
        rw [hred]
        rcases hcol with h | h
        · rw [h]; exact Or.inr (Or.inr ⟨rfl, Or.inl rfl⟩)
        · rw [h]; exact Or.inr (Or.inr ⟨rfl, Or.inr rfl⟩)
      · rw [hframeR v hvi]
        exact monoA v
    · intro v hy hvl
      have hvi : v ≠ i := by simpa using hvl
      have hfr2 := nb.frameCol v hy
      exact ⟨(hframeR v hvi).trans hfr2.1, (hdaysR v).trans hfr2.2.1,
        (htotR v).trans hfr2.2.2⟩
    · rcases nb.newlyExt with ⟨ns, hns, hprop⟩
      refine ⟨ns, by rw [hnewR, hns], ?_⟩
      intro v hv
      exact ⟨(hprop v hv).1, i, List.mem_singleton_self i, (hprop v hv).2⟩
    · intro v hy hr
      have hvi : v ≠ i := by
        intro h
        subst h
        rcases hcol with hc | hc
        · rw [hc] at hr; exact absurd hr (by decide)
        · rw [hc] at hr; exact absurd hr (by decide)
      rw [hframeR v hvi] at hr
      rw [hnewR]
      exact nb.newlyMem v hy hr
    · exact hpoolR.trans nb.lists.1
    · exact ⟨hnIR.trans nb.lists.2.2.2.1, hnRR.trans nb.lists.2.2.2.2.1,
        hnDR.trans nb.lists.2.2.2.2.2⟩
    · intro v hy
      have hvi : v ≠ i := fun h => by rw [h, hred] at hy; exact absurd hy (by decide)
      rcases nb.yellowStep v hy with h | h
      · left; rw [hframeR v hvi]; exact h
      · right
        rw [hframeR v hvi, hnewR]
        exact ⟨h, nb.newlyMem v hy h⟩
    · intro hne
      exact absurd hd hne
    · intro _
      exact ⟨hcol, (htotR i).trans htot1⟩
  · have hd1 : A.st.infectedDays i ≠ 0 := by rw [hdays1]; exact hd
    have hstep : processNode g R dr rng a i =
        some { A with st := { A.st with
          infectedDays := upd A.st.infectedDays i (A.st.infectedDays i - 1) } } := by
      have h1 : ((g.adj i).foldl (tryInfect rng (beta g R a.st i)) a).st.color i
          = Color.red := by rw [← hADef]; exact hred1
      have h2 : ((g.adj i).foldl (tryInfect rng (beta g R a.st i)) a).st.infectedDays i
          ≠ 0 := by rw [← hADef]; exact hd1
      rw [hADef]
      exact processNode_eq_decr g R dr rng i a hdeg htot h1 h2
    refine ⟨_, hstep, ?_, ⟨?_, ?_, ?_, ?_, ?_, ?_⟩, ?_, ?_, ?_⟩
    · exact hA1
    · intro v
      exact monoA v
    · intro v hy hvl
      have hvi : v ≠ i := by simpa using hvl
      have hfr2 := nb.frameCol v hy
      refine ⟨hfr2.1, ?_, hfr2.2.2⟩
      show upd A.st.infectedDays i (A.st.infectedDays i - 1) v = a.st.infectedDays v
      rw [upd_ne _ _ hvi]
      exact hfr2.2.1
    · rcases nb.newlyExt with ⟨ns, hns, hprop⟩
      refine ⟨ns, hns, ?_⟩
      intro v hv
      exact ⟨(hprop v hv).1, i, List.mem_singleton_self i, (hprop v hv).2⟩
    · intro v hy hr
      exact nb.newlyMem v hy hr
    · exact nb.lists.1
    · exact ⟨nb.lists.2.2.2.1, nb.lists.2.2.2.2.1, nb.lists.2.2.2.2.2⟩
    · intro v hy
      rcases nb.yellowStep v hy with h | h
      · left; exact h
      · right
        exact ⟨h, nb.newlyMem v hy h⟩
    · intro _
      refine ⟨hred1, ?_, htot1⟩
      show upd A.st.infectedDays i (A.st.infectedDays i - 1) i = a.st.infectedDays i - 1
      rw [upd_same, hdays1]
    · intro hz
      exact absurd hz hd

theorem poolRel_refl (g : Graph) (l : List Nat) (a : DayAcc) : PoolRel g l a a := by
  refine ⟨fun v => colorLe_refl _, fun v _ _ => ⟨rfl, rfl, rfl⟩,
    ⟨[], by simp, by simp⟩, ?_, rfl, ⟨rfl, rfl, rfl⟩⟩
  intro v hy hr
  rw [hy] at hr
  exact absurd hr (by decide)

theorem poolRel_trans {g : Graph} {l1 l2 : List Nat} {a a1 a2 : DayAcc}
    (h1 : PoolRel g l1 a a1) (h2 : PoolRel g l2 a1 a2) :
    PoolRel g (l1 ++ l2) a a2 := by
  refine ⟨?_, ?_, ?_, ?_, ?_, ?_⟩
  · intro v
    exact colorLe_trans (h1.mono v) (h2.mono v)
  · intro v hv hvl
    rw [List.mem_append] at hvl
    push_neg at hvl
    have e1 := h1.frameOut v hv hvl.1
    have hv1 : a1.st.color v ≠ Color.yellow := by rw [e1.1]; exact hv
    have e2 := h2.frameOut v hv1 hvl.2
    exact ⟨e2.1.trans e1.1, e2.2.1.trans e1.2.1, e2.2.2.trans e1.2.2⟩
  · rcases h1.newlyExt with ⟨ns1, e1, p1⟩
    rcases h2.newlyExt with ⟨ns2, e2, p2⟩
    refine ⟨ns1 ++ ns2, by rw [e2, e1, List.append_assoc], ?_⟩
    intro v hv
    rcases List.mem_append.mp hv with h | h
    · rcases p1 v h with ⟨hy, i, hi, hadj⟩
      exact ⟨hy, i, List.mem_append_left _ hi, hadj⟩
    · rcases p2 v h with ⟨hy1, i, hi, hadj⟩
      have hy : a.st.color v = Color.yellow := by
        have := h1.mono v
        rw [hy1] at this
        exact colorLe_yellow_right this
      exact ⟨hy, i, List.mem_append_right _ hi, hadj⟩
  · intro v hy hr
    cases hc : a1.st.color v with
    | yellow => exact h2.newlyMem v hc hr
    | red =>
      rcases h2.newlyExt with ⟨ns2, e2, _⟩
      rw [e2]
      exact List.mem_append_left _ (h1.newlyMem v hy hc)
    | black =>
      have := h2.mono v
      rw [hc] at this
      rw [colorLe_black_left this] at hr
      exact absurd hr (by decide)
    | blue =>
      have := h2.mono v
      rw [hc] at this
      rw [colorLe_blue_left this] at hr
      exact absurd hr (by decide)
  · exact h2.pools.trans h1.pools
  · exact ⟨h2.series.1.trans h1.series.1, h2.series.2.1.trans h1.series.2.1,
      h2.series.2.2.trans h1.series.2.2⟩

theorem poolFold_ok (g : Graph) (R dr : ℚ) (rng : RNG) (hS : g.Symm) :
    ∀ (l : List Nat) (a : DayAcc), AccInv g a → l.Nodup →
      (∀ v ∈ l, a.st.color v = Color.red) →
      (∀ v ∈ l, 1 ≤ a.st.totalInfectionTime v) →
      (∀ v ∈ l, 1 ≤ g.degree v) →
      (∀ v ∈ l, v ∉ a.newly) →
      ∃ a', l.foldlM (processNode g R dr rng) a = some a' ∧
        AccInv g a' ∧ PoolRel g l a a' ∧
        (∀ v, a.st.color v = Color.yellow →
          a'.st.color v = Color.yellow ∨ (a'.st.color v = Color.red ∧ v ∈ a'.newly)) ∧
        (∀ v ∈ l,
          (a.st.infectedDays v ≠ 0 →
            a'.st.color v = Color.red ∧ a'.st.infectedDays v = a.st.infectedDays v - 1 ∧
              a'.st.totalInfectionTime v = a.st.totalInfectionTime v) ∧
          (a.st.infectedDays v = 0 →
            (a'.st.color v = Color.blue ∨ a'.st.color v = Color.black))) := by
  intro l
  induction l with
  | nil =>
    intro a hA _ _ _ _ _
    refine ⟨a, rfl, hA, poolRel_refl g [] a, ?_, ?_⟩
    · intro v hy
      exact Or.inl hy
    · intro v hv
      exact absurd hv (List.not_mem_nil v)
  | cons i t ih =>
    intro a hA hnd hredl htotl hdegl hninl
    have hit : i ∉ t := (List.nodup_cons.mp hnd).1
    have hndt : t.Nodup := (List.nodup_cons.mp hnd).2
    obtain ⟨a1, hstep, hA1, prel1, e71, hdays1⟩ :=
      processNode_ok g R dr rng i a hS hA (hredl i (List.mem_cons_self i t))
        (htotl i (List.mem_cons_self i t)) (hdegl i (List.mem_cons_self i t))
        (hninl i (List.mem_cons_self i t))
    have hframe1 : ∀ v ∈ t,
        a1.st.color v = a.st.color v ∧ a1.st.infectedDays v = a.st.infectedDays v ∧
          a1.st.totalInfectionTime v = a.st.totalInfectionTime v := by
      intro v hv
      have hvne : v ≠ i := fun h => hit (h ▸ hv)
      exact prel1.frameOut v
        (by rw [hredl v (List.mem_cons_of_mem i hv)]; decide) (by simpa using hvne)
    have hredt : ∀ v ∈ t, a1.st.color v = Color.red := by
      intro v hv
      rw [(hframe1 v hv).1]
      exact hredl v (List.mem_cons_of_mem i hv)
    have htott : ∀ v ∈ t, 1 ≤ a1.st.totalInfectionTime v := by
      intro v hv
      rw [(hframe1 v hv).2.2]
      exact htotl v (List.mem_cons_of_mem i hv)
    have hdegt : ∀ v ∈ t, 1 ≤ g.degree v :=
      fun v hv => hdegl v (List.mem_cons_of_mem i hv)
    have hnint : ∀ v ∈ t, v ∉ a1.newly := by
      intro v hv
      rcases prel1.newlyExt with ⟨ns, hns, hprop⟩
      rw [hns]
      intro hmem
      rcases List.mem_append.mp hmem with h | h
      · exact hninl v (List.mem_cons_of_mem i hv) h
      · have := (hprop v h).1
        rw [hredl v (List.mem_cons_of_mem i hv)] at this
        exact absurd this (by decide)
    obtain ⟨a', hfold, hA', prel2, e72, hdays2⟩ :=
      ih a1 hA1 hndt hredt htott hdegt hnint
    have hrun : (i :: t).foldlM (processNode g R dr rng) a = some a' := by
      rw [List.foldlM_cons, hstep]
      simpa using hfold
    refine ⟨a', hrun, hA', poolRel_trans prel1 prel2, ?_, ?_⟩
    · intro v hy
      rcases e71 v hy with h | ⟨hr1, hn1⟩
      · exact e72 v h
      · right
        have hvt : v ∉ t := by
          intro hvt
          rw [hredl v (List.mem_cons_of_mem i hvt)] at hy
          exact absurd hy (by decide)
        have hfr2 := prel2.frameOut v (by rw [hr1]; decide) hvt
        refine ⟨by rw [hfr2.1]; exact hr1, ?_⟩
        rcases prel2.newlyExt with ⟨ns2, hns2, _⟩
        rw [hns2]
        exact List.mem_append_left _ hn1
    · intro v hv
      rcases List.mem_cons.mp hv with rfl | hvt
      · constructor
        · intro hne
          obtain ⟨hr1, hd1, ht1⟩ := hdays1.1 hne
          have hfr2 := prel2.frameOut v (by rw [hr1]; decide) hit
          exact ⟨by rw [hfr2.1]; exact hr1, by rw [hfr2.2.1]; exact hd1,
            by rw [hfr2.2.2]; exact ht1⟩
        · intro hz
          obtain ⟨hc1, _⟩ := hdays1.2 hz
          rcases hc1 with hc | hc
          · have hfr2 := prel2.frameOut v (by rw [hc]; decide) hit
            exact Or.inl (by rw [hfr2.1]; exact hc)
          · have hfr2 := prel2.frameOut v (by rw [hc]; decide) hit
            exact Or.inr (by rw [hfr2.1]; exact hc)
      · have hfr1 := hframe1 v hvt
        constructor
        · intro hne
          have hne1 : a1.st.infectedDays v ≠ 0 := by rw [hfr1.2.1]; exact hne
          obtain ⟨hr2, hd2, ht2⟩ := (hdays2 v hvt).1 hne1
          exact ⟨hr2, by rw [hd2, hfr1.2.1], by rw [ht2, hfr1.2.2]⟩
        · intro hz
          have hz1 : a1.st.infectedDays v = 0 := by rw [hfr1.2.1]; exact hz
          exact (hdays2 v hvt).2 hz1

theorem dayStep_eq (g : Graph) (R dr : ℚ) (rng : RNG) (s : SimState) (a' : DayAcc)
    (h : s.infected.foldlM (processNode g R dr rng) ⟨s, [], 0, 0⟩ = some a') :
    dayStep g R dr rng s = some { a'.st with
      nDead := a'.st.nDead ++ [a'.newDead]
      nRecovered := a'.st.nRecovered ++ [a'.newRecovered]
      nInfected := a'.st.nInfected ++ [a'.newly.length]
      infected := setdiff1d (setdiff1d (a'.st.infected ++ a'.newly)
        a'.st.recoveredNodes) a'.st.deadNodes } := by
  unfold dayStep
  rw [h]

theorem dayStep_none (g : Graph) (R dr : ℚ) (rng : RNG) (s : SimState)
    (h : s.infected.foldlM (processNode g R dr rng) ⟨s, [], 0, 0⟩ = none) :
    dayStep g R dr rng s = none := by
  unfold dayStep
  rw [h]

theorem dayStep_ok (g : Graph) (R dr : ℚ) (rng : RNG) (s : SimState)
    (hS : g.Symm) (hWF : WF s) (hDeg : DegOK g s) :
    ∃ s', dayStep g R dr rng s = some s' ∧
      WF s' ∧ DegOK g s' ∧
      (∀ v, colorLe (s.color v) (s'.color v)) ∧
      (∀ v, s'.color v = Color.yellow → s.color v = Color.yellow) ∧
      (∀ v ∈ s.infected,
        (s.infectedDays v ≠ 0 →
          v ∈ s'.infected ∧ s'.color v = Color.red ∧
            s'.infectedDays v = s.infectedDays v - 1 ∧
            s'.totalInfectionTime v = s.totalInfectionTime v) ∧
        (s.infectedDays v = 0 →
          (s'.color v = Color.blue ∨ s'.color v = Color.black) ∧ v ∉ s'.infected)) ∧
      (∀ v, s.color v = Color.yellow → s'.color v = Color.red →
        (∃ i ∈ s.infected, v ∈ g.adj i) ∧ v ∈ s'.infected ∧ v ∉ s.infected) ∧
      ((∃ v, s.color v = Color.yellow ∧ s'.color v = Color.red ∧
          ∃ i ∈ s.infected, v ∈ g.adj i) ∨
        ((∀ v ∈ s'.infected, v ∈ s.infected) ∧
          ∀ v ∈ s'.infected, s.infectedDays v ≠ 0 ∧
            s'.infectedDays v = s.infectedDays v - 1)) ∧
      (s'.nInfected.length = s.nInfected.length + 1 ∧
        s'.nDead.length = s.nDead.length + 1 ∧
        s'.nRecovered.length = s.nRecovered.length + 1) := by
  obtain ⟨hnd, hpoolred, hrecblue, hdeadblack, hpooltot⟩ := hWF
  have hA0 : AccInv g ⟨s, [], 0, 0⟩ := by
    refine ⟨hrecblue, hdeadblack, ?_, ?_, ?_⟩ <;>
      exact fun v hv => absurd hv (List.not_mem_nil v)
  obtain ⟨a', hfold, hA', prel, e7, hdays⟩ :=
    poolFold_ok g R dr rng hS s.infected ⟨s, [], 0, 0⟩ hA0 hnd
      (fun v hv => (hpoolred v).mp hv) hpooltot hDeg
      (fun v _ hv => absurd hv (List.not_mem_nil v))
  obtain ⟨hrec', hdead', hnewred', hnewtot', hnewdeg'⟩ := hA'
  have hpool : a'.st.infected = s.infected := prel.pools
  have hnewsrc : ∀ v ∈ a'.newly, s.color v = Color.yellow ∧
      ∃ i ∈ s.infected, v ∈ g.adj i := by
    rcases prel.newlyExt with ⟨ns, hns, hprop⟩
    intro v hv
    rw [hns] at hv
    simpa using hprop v (by simpa using hv)
  have hmemnp : ∀ v,
      v ∈ setdiff1d (setdiff1d (a'.st.infected ++ a'.newly)
        a'.st.recoveredNodes) a'.st.deadNodes ↔
      ((v ∈ s.infected ∨ v ∈ a'.newly) ∧ ¬ a'.st.color v = Color.blue ∧
        ¬ a'.st.color v = Color.black) := by
    intro v
    rw [mem_setdiff1d, mem_setdiff1d, List.mem_append, hpool]
    constructor
    · rintro ⟨⟨hin, hnr⟩, hnd2⟩
      exact ⟨hin, fun h => hnr ((hrec' v).mpr h), fun h => hnd2 ((hdead' v).mpr h)⟩
    · rintro ⟨hin, hnb, hnbl⟩
      exact ⟨⟨hin, fun h => hnb ((hrec' v).mp h)⟩, fun h => hnbl ((hdead' v).mp h)⟩
  have hmono : ∀ v, colorLe (s.color v) (a'.st.color v) := prel.mono
  have hin_of_red : ∀ v, a'.st.color v = Color.red →
      ((v ∈ s.infected ∧ s.infectedDays v ≠ 0) ∨ v ∈ a'.newly) := by
    intro v hr
    cases hc : s.color v with
    | yellow =>
      rcases e7 v hc with h | ⟨_, hn⟩
      · rw [h] at hr; exact absurd hr (by decide)
      · exact Or.inr hn
    | red =>
      have hv : v ∈ s.infected := (hpoolred v).mpr hc
      by_cases hz : s.infectedDays v = 0
      · rcases (hdays v hv).2 hz with h | h
        · rw [h] at hr; exact absurd hr (by decide)
        · rw [h] at hr; exact absurd hr (by decide)
      · exact Or.inl ⟨hv, hz⟩
    | black =>
      have := hmono v
      rw [hc] at this
      rw [colorLe_black_left this] at hr
      exact absurd hr (by decide)
    | blue =>
      have := hmono v
      rw [hc] at this
      rw [colorLe_blue_left this] at hr
      exact absurd hr (by decide)
  refine ⟨_, dayStep_eq g R dr rng s a' hfold, ⟨?_, ?_, ?_, ?_, ?_⟩, ?_, ?_, ?_, ?_, ?_, ?_, ?_⟩
  · exact nodup_setdiff1d _ _
  · intro v
    rw [show (({ a'.st with
      nDead := a'.st.nDead ++ [a'.newDead]
      nRecovered := a'.st.nRecovered ++ [a'.newRecovered]
      nInfected := a'.st.nInfected ++ [a'.newly.length]
      infected := setdiff1d (setdiff1d (a'.st.infected ++ a'.newly)
        a'.st.recoveredNodes) a'.st.deadNodes } : SimState).infected)
      = setdiff1d (setdiff1d (a'.st.infected ++ a'.newly)
        a'.st.recoveredNodes) a'.st.deadNodes from rfl]
    rw [hmemnp v]
    constructor
    · rintro ⟨hin, hnb, hnbl⟩
      rcases hin with hin | hin
      · by_cases hz : s.infectedDays v = 0
        · rcases (hdays v hin).2 hz with h | h
          · exact absurd h hnb
          · exact absurd h hnbl
        · exact ((hdays v hin).1 hz).1
      · exact hnewred' v hin
    · intro hr
      rcases hin_of_red v hr with ⟨hv, hz⟩ | hn
      · exact ⟨Or.inl hv, by rw [hr]; decide, by rw [hr]; decide⟩
      · exact ⟨Or.inr hn, by rw [hr]; decide, by rw [hr]; decide⟩
  · exact hrec'
  · exact hdead'
  · intro v hv
    rw [hmemnp v] at hv
    rcases hv.1 with hin | hin
    · by_cases hz : s.infectedDays v = 0
      · rcases (hdays v hin).2 hz with h | h
        · exact absurd h hv.2.1
        · exact absurd h hv.2.2
      · have := ((hdays v hin).1 hz).2.2
        rw [this]
        exact hpooltot v hin
    · exact hnewtot' v hin
  · intro v hv
    rw [hmemnp v] at hv
    rcases hv.1 with hin | hin
    · exact hDeg v hin
    · exact hnewdeg' v hin
  · exact prel.mono
  · intro v hv
    exact colorLe_yellow_right ((hv ▸ hmono v : colorLe (s.color v) Color.yellow))
  · intro v hv
    constructor
    · intro hz
      obtain ⟨hr, hd2, ht2⟩ := (hdays v hv).1 hz
      refine ⟨?_, hr, hd2, ht2⟩
      rw [hmemnp v]
      exact ⟨Or.inl hv, by rw [hr]; decide, by rw [hr]; decide⟩
    · intro hz
      refine ⟨(hdays v hv).2 hz, ?_⟩
      rw [hmemnp v]
      rintro ⟨_, hnb, hnbl⟩
      rcases (hdays v hv).2 hz with h | h
      · exact hnb h
      · exact hnbl h
  · intro v hy hr
    rcases e7 v hy with h | ⟨hr2, hn⟩
    · rw [h] at hr; exact absurd hr (by decide)
    · refine ⟨(hnewsrc v hn).2, ?_, ?_⟩
      · rw [hmemnp v]
        exact ⟨Or.inr hn, by rw [hr2]; decide, by rw [hr2]; decide⟩
      · intro hv
        rw [(hpoolred v).mp hv] at hy
        exact absurd hy (by decide)
  · cases hnl : a'.newly with
    | cons w ws =>
      left
      have hw : w ∈ a'.newly := by rw [hnl]; exact List.mem_cons_self w ws
      refine ⟨w, (hnewsrc w hw).1, hnewred' w hw, (hnewsrc w hw).2⟩
    | nil =>
      right
      constructor
      · intro v hv
        have hv2 : v ∈ setdiff1d (setdiff1d (a'.st.infected ++ a'.newly)
            a'.st.recoveredNodes) a'.st.deadNodes := by
          rw [hnl]; exact hv
        rw [hmemnp v] at hv2
        rcases hv2.1 with hin | hin
        · exact hin
        · rw [hnl] at hin; exact absurd hin (List.not_mem_nil v)
      · intro v hv
        have hv2 : v ∈ setdiff1d (setdiff1d (a'.st.infected ++ a'.newly)
            a'.st.recoveredNodes) a'.st.deadNodes := by
          rw [hnl]; exact hv
        rw [hmemnp v] at hv2
        rcases hv2.1 with hin | hin
        · by_cases hz : s.infectedDays v = 0
          · rcases (hdays v hin).2 hz with h | h
            · exact absurd h hv2.2.1
            · exact absurd h hv2.2.2
          · exact ⟨hz, ((hdays v hin).1 hz).2.1⟩
        · rw [hnl] at hin; exact absurd hin (List.not_mem_nil v)
  · refine ⟨?_, ?_, ?_⟩
    · show (a'.st.nInfected ++ [a'.newly.length]).length = s.nInfected.length + 1
      rw [List.length_append, prel.series.1]
      rfl
    · show (a'.st.nDead ++ [a'.newDead]).length = s.nDead.length + 1
      rw [List.length_append, prel.series.2.2]
      rfl
    · show (a'.st.nRecovered ++ [a'.newRecovered]).length = s.nRecovered.length + 1
      rw [List.length_append, prel.series.2.1]
      rfl

theorem seedLoop_nil (g : Graph) (rng : RNG) (s : SimState) :
    seedLoop g rng s [] = Except.ok s := rfl

theorem seedLoop_cons_mem {g : Graph} {rng : RNG} {s : SimState} {i : Nat}
    {rest : List Nat} (hi : i ∈ g.nodes) :
    seedLoop g rng s (i :: rest) =
      seedLoop g rng { s with
        color := upd s.color i Color.red
        infectedDays := upd s.infectedDays i (durationDraw rng s.nIdx)
        totalInfectionTime := upd s.totalInfectionTime i (durationDraw rng s.nIdx)
        infected := s.infected ++ [i]
        nIdx := s.nIdx + 1 } rest := by
  simp [seedLoop, hi]

theorem seedLoop_cons_err {g : Graph} {rng : RNG} {s : SimState} {i : Nat}
    {rest : List Nat} (hi : i ∉ g.nodes) :
    seedLoop g rng s (i :: rest) =
      Except.error { s with infected := s.infected ++ [i] } := by
  simp [seedLoop, hi]

theorem seedLoop_ok (g : Graph) (rng : RNG) :
    ∀ (l : List Nat) (s : SimState), (∀ i ∈ l, i ∈ g.nodes) →
      ∃ s', seedLoop g rng s l = Except.ok s' ∧
        s'.infected = s.infected ++ l ∧
        (∀ v, v ∉ l → s'.color v = s.color v ∧
          s'.infectedDays v = s.infectedDays v ∧
          s'.totalInfectionTime v = s.totalInfectionTime v) ∧
        (∀ v ∈ l, s'.color v = Color.red ∧ 1 ≤ s'.totalInfectionTime v ∧
          s'.infectedDays v = s'.totalInfectionTime v) ∧
        s'.recoveredNodes = s.recoveredNodes ∧ s'.deadNodes = s.deadNodes ∧
        s'.nInfected = s.nInfected ∧ s'.nRecovered = s.nRecovered ∧
        s'.nDead = s.nDead := by
  intro l
  induction l with
  | nil =>
    intro s _
    exact ⟨s, rfl, by simp, fun v _ => ⟨rfl, rfl, rfl⟩,
      fun v hv => absurd hv (List.not_mem_nil v), rfl, rfl, rfl, rfl, rfl⟩
  | cons i rest ih =>
    intro s hmem
    have hi : i ∈ g.nodes := hmem i (List.mem_cons_self i rest)
    obtain ⟨s', hrun, hpool, hframe, hseeds, hrec, hdead, hnI, hnR, hnD⟩ :=
      ih { s with
        color := upd s.color i Color.red
        infectedDays := upd s.infectedDays i (durationDraw rng s.nIdx)
        totalInfectionTime := upd s.totalInfectionTime i (durationDraw rng s.nIdx)
        infected := s.infected ++ [i]
        nIdx := s.nIdx + 1 } (fun j hj => hmem j (List.mem_cons_of_mem i hj))
    refine ⟨s', (seedLoop_cons_mem hi).trans hrun, ?_, ?_, ?_, hrec, hdead, hnI, hnR, hnD⟩
    · rw [hpool]
      simp
    · intro v hv
      have hvi : v ≠ i := fun h => hv (h ▸ List.mem_cons_self i rest)
      have hvr : v ∉ rest := fun h => hv (List.mem_cons_of_mem i h)
      obtain ⟨hc, hd, ht⟩ := hframe v hvr
      rw [hc, hd, ht]
      exact ⟨upd_ne _ _ hvi, upd_ne _ _ hvi, upd_ne _ _ hvi⟩
    · intro v hv
      by_cases hvr : v ∈ rest
      · exact hseeds v hvr
      · rcases List.mem_cons.mp hv with rfl | h
        · obtain ⟨hc, hd, ht⟩ := hframe v hvr
          rw [hc, hd, ht]
          refine ⟨?_, ?_, ?_⟩
          · show upd s.color v Color.red v = Color.red
            exact upd_same _ _ _
          · show 1 ≤ upd s.totalInfectionTime v (durationDraw rng s.nIdx) v
            rw [upd_same]
            exact one_le_durationDraw rng _
          · show upd s.infectedDays v (durationDraw rng s.nIdx) v
              = upd s.totalInfectionTime v (durationDraw rng s.nIdx) v
            rw [upd_same, upd_same]
        · exact absurd h hvr

theorem seedLoop_err (g : Graph) (rng : RNG) :
    ∀ (pre : List Nat) (b : Nat) (rest : List Nat) (s : SimState),
      (∀ i ∈ pre, i ∈ g.nodes) → b ∉ g.nodes →
      ∃ s', seedLoop g rng s (pre ++ b :: rest) = Except.error s' ∧
        (∀ v ∈ pre, s'.color v = Color.red) ∧
        (∀ v, s'.color v = s.color v ∨ s'.color v = Color.red) := by
  intro pre
  induction pre with
  | nil =>
    intro b rest s _ hb
    rw [List.nil_append]
    refine ⟨{ s with infected := s.infected ++ [b] }, seedLoop_cons_err hb, ?_,
      fun v => Or.inl rfl⟩
    intro v hv
    exact absurd hv (List.not_mem_nil v)
  | cons i pre' ih =>
    intro b rest s hmem hb
    have hi : i ∈ g.nodes := hmem i (List.mem_cons_self i pre')
    rw [List.cons_append]
    obtain ⟨s', herr, hpre, hor⟩ :=
      ih b rest { s with
        color := upd s.color i Color.red
        infectedDays := upd s.infectedDays i (durationDraw rng s.nIdx)
        totalInfectionTime := upd s.totalInfectionTime i (durationDraw rng s.nIdx)
        infected := s.infected ++ [i]
        nIdx := s.nIdx + 1 } (fun j hj => hmem j (List.mem_cons_of_mem i hj)) hb
    refine ⟨s', (seedLoop_cons_mem hi).trans herr, ?_, ?_⟩
    · intro v hv
      rcases List.mem_cons.mp hv with rfl | h
      · rcases hor v with h2 | h2
        · rw [h2]
          show upd s.color v Color.red v = Color.red
          exact upd_same _ _ _
        · exact h2
      · exact hpre v h
    · intro v
      rcases hor v with h2 | h2
      · by_cases hvi : v = i
        · subst hvi
          right
          rw [h2]
          show upd s.color v Color.red v = Color.red
          exact upd_same _ _ _
        · left
          rw [h2]
          show upd s.color i Color.red v = s.color v
          exact upd_ne _ _ hvi
      · exact Or.inr h2

theorem ycount_le (g : Graph) {s s' : SimState}
    (h : ∀ v, s'.color v = Color.yellow → s.color v = Color.yellow) :
    ycount g s' ≤ ycount g s := by
  unfold ycount
  apply length_filter_le_of_imp
  intro x _ hx
  rw [decide_eq_true_iff] at hx
  rw [decide_eq_true_iff]
  exact h x hx

theorem ycount_lt (g : Graph) {s s' : SimState} {v : Nat}
    (h : ∀ w, s'.color w = Color.yellow → s.color w = Color.yellow)
    (hv : v ∈ g.nodes) (hy : s.color v = Color.yellow)
    (hy' : ¬ s'.color v = Color.yellow) :
    ycount g s' < ycount g s := by
  unfold ycount
  apply length_filter_lt_of_witness _ _ g.nodes _ v hv
  · rw [decide_eq_true_iff]
    exact hy
  · rw [decide_eq_false_iff_not]
    exact hy'
  · intro x _ hx
    rw [decide_eq_true_iff] at hx
    rw [decide_eq_true_iff]
    exact h x hx

theorem poolMeasure_lt {s s' : SimState}
    (hne : s.infected ≠ []) (hnd' : s'.infected.Nodup)
    (hsub : ∀ v ∈ s'.infected, v ∈ s.infected)
    (hdec : ∀ v ∈ s'.infected, s.infectedDays v ≠ 0 ∧
      s'.infectedDays v = s.infectedDays v - 1) :
    poolMeasure s' < poolMeasure s := by
  unfold poolMeasure
  have h1 : (s'.infected.map (fun v => s'.infectedDays v + 1)).sum
      = (s'.infected.map (fun v => s.infectedDays v)).sum := by
    have : s'.infected.map (fun v => s'.infectedDays v + 1)
        = s'.infected.map (fun v => s.infectedDays v) := by
      apply List.map_congr_left
      intro v hv
      have := hdec v hv
      omega
    rw [this]
  have h2 : (s'.infected.map (fun v => s.infectedDays v)).sum
      ≤ (s.infected.map (fun v => s.infectedDays v)).sum :=
    sum_map_le_of_subset _ _ _ hnd' hsub
  have h3 : (s.infected.map (fun v => s.infectedDays v + 1)).sum
      = (s.infected.map (fun v => s.infectedDays v)).sum + s.infected.length :=
    sum_map_succ _ _
  have h4 : 1 ≤ s.infected.length := by
    cases hl : s.infected with
    | nil => exact absurd hl hne
    | cons w ws => simp
  omega

theorem runLoop_step {g : Graph} {R dr : ℚ} {rng : RNG} {n : Nat} {s s' : SimState}
    (hemp : ¬ s.infected = []) (hstep : dayStep g R dr rng s = some s') :
    runLoop g R dr rng (n + 1) s = runLoop g R dr rng n s' := by
  show (if s.infected = [] then RunOut.done s
    else match dayStep g R dr rng s with
      | none => RunOut.crash
      | some s2 => runLoop g R dr rng n s2) = runLoop g R dr rng n s'
  rw [if_neg hemp, hstep]

theorem runLoop_crash_eq {g : Graph} {R dr : ℚ} {rng : RNG} {n : Nat} {s : SimState}
    (hemp : ¬ s.infected = []) (hstep : dayStep g R dr rng s = none) :
    runLoop g R dr rng (n + 1) s = RunOut.crash := by
  show (if s.infected = [] then RunOut.done s
    else match dayStep g R dr rng s with
      | none => RunOut.crash
      | some s2 => runLoop g R dr rng n s2) = RunOut.crash
  rw [if_neg hemp, hstep]

theorem runLoop_done_eq {g : Graph} {R dr : ℚ} {rng : RNG} {n : Nat} {s : SimState}
    (hemp : s.infected = []) :
    runLoop g R dr rng (n + 1) s = RunOut.done s := by
  show (if s.infected = [] then RunOut.done s
    else match dayStep g R dr rng s with
      | none => RunOut.crash
      | some s2 => runLoop g R dr rng n s2) = RunOut.done s
  rw [if_pos hemp]

theorem runLoop_term (g : Graph) (R dr : ℚ) (rng : RNG) (hS : g.Symm)
    (hAC : g.AdjClosed) :
    ∀ y p (s : SimState), WF s → DegOK g s → ycount g s = y → poolMeasure s = p →
      ∃ n s', runLoop g R dr rng n s = RunOut.done s' ∧ s'.infected = [] := by
  intro y
  induction y using Nat.strong_induction_on with
  | _ y ihy =>
    intro p
    induction p using Nat.strong_induction_on with
    | _ p ihp =>
      intro s hWF hDeg hy hp
      by_cases hemp : s.infected = []
      · exact ⟨1, s, runLoop_done_eq hemp, hemp⟩
      · obtain ⟨s', hstep, hWF', hDeg', hmono, hyback, hdays, hnew, hdich, hlen⟩ :=
          dayStep_ok g R dr rng s hS hWF hDeg
        have hle : ycount g s' ≤ ycount g s := ycount_le g hyback
        have hnext : ∃ n s'', runLoop g R dr rng n s' = RunOut.done s'' ∧
            s''.infected = [] := by
          rcases hdich with ⟨v, hvy, hvr, i, hi, hadj⟩ | ⟨hsub, hdec⟩
          · have hvn : v ∈ g.nodes := hAC i v hadj
            have hlt : ycount g s' < ycount g s := by
              apply ycount_lt g hyback hvn hvy
              rw [hvr]
              decide
            exact ihy (ycount g s') (hy ▸ hlt) (poolMeasure s') s' hWF' hDeg' rfl rfl
          · by_cases hyeq : ycount g s' = ycount g s
            · have hlt : poolMeasure s' < poolMeasure s :=
                poolMeasure_lt hemp hWF'.1 hsub hdec
              exact ihp (poolMeasure s') (hp ▸ hlt) s' hWF' hDeg'
                (hyeq.trans hy) rfl
            · have hlt : ycount g s' < ycount g s := lt_of_le_of_ne hle hyeq
              exact ihy (ycount g s') (hy ▸ hlt) (poolMeasure s') s' hWF' hDeg' rfl rfl
        obtain ⟨n, s'', hrun, hfin⟩ := hnext
        exact ⟨n + 1, s'', (runLoop_step hemp hstep).trans hrun, hfin⟩

theorem tryInfect_lists (rng : RNG) (b : ℚ) (a : DayAcc) (j : Nat) :
    (tryInfect rng b a j).st.nInfected = a.st.nInfected ∧
    (tryInfect rng b a j).st.nRecovered = a.st.nRecovered ∧
    (tryInfect rng b a j).st.nDead = a.st.nDead ∧
    (tryInfect rng b a j).st.infected = a.st.infected := by
  by_cases hy : a.st.color j = Color.yellow
  · by_cases hu : rng.unif a.st.uIdx < b
    · rw [tryInfect_hit hy hu]
      exact ⟨rfl, rfl, rfl, rfl⟩
    · rw [tryInfect_miss hy hu]
      exact ⟨rfl, rfl, rfl, rfl⟩
  · rw [tryInfect_not_yellow hy]
    exact ⟨rfl, rfl, rfl, rfl⟩

theorem nbFold_lists (rng : RNG) (b : ℚ) :
    ∀ (l : List Nat) (a : DayAcc),
      (l.foldl (tryInfect rng b) a).st.nInfected = a.st.nInfected ∧
      (l.foldl (tryInfect rng b) a).st.nRecovered = a.st.nRecovered ∧
      (l.foldl (tryInfect rng b) a).st.nDead = a.st.nDead ∧
      (l.foldl (tryInfect rng b) a).st.infected = a.st.infected := by
  intro l
  induction l with
  | nil => intro a; exact ⟨rfl, rfl, rfl, rfl⟩
  | cons j t ih =>
    intro a
    rw [List.foldl_cons]
    obtain ⟨h1, h2, h3, h4⟩ := ih (tryInfect rng b a j)
    obtain ⟨g1, g2, g3, g4⟩ := tryInfect_lists rng b a j
    exact ⟨h1.trans g1, h2.trans g2, h3.trans g3, h4.trans g4⟩

theorem resolveNode_lists (dr : ℚ) (rng : RNG) (i : Nat) (a : DayAcc) :
    (resolveNode dr rng i a).st.nInfected = a.st.nInfected ∧
    (resolveNode dr rng i a).st.nRecovered = a.st.nRecovered ∧
    (resolveNode dr rng i a).st.nDead = a.st.nDead ∧
    (resolveNode dr rng i a).st.infected = a.st.infected := by
  by_cases hu : rng.unif a.st.uIdx < dr
  · rw [resolveNode_dead hu]
    exact ⟨rfl, rfl, rfl, rfl⟩
  · rw [resolveNode_live hu]
    exact ⟨rfl, rfl, rfl, rfl⟩

theorem processNode_lists {g : Graph} {R dr : ℚ} {rng : RNG} {a : DayAcc} {i : Nat}
    {a2 : DayAcc} (h : processNode g R dr rng a i = some a2) :
    a2.st.nInfected = a.st.nInfected ∧
    a2.st.nRecovered = a.st.nRecovered ∧
    a2.st.nDead = a.st.nDead ∧
    a2.st.infected = a.st.infected := by
  by_cases hcond : g.degree i = 0 ∨ a.st.totalInfectionTime i = 0
  · rw [processNode, if_pos hcond] at h
    exact absurd h (by simp)
  · rw [processNode, if_neg hcond] at h
    obtain ⟨f1, f2, f3, f4⟩ := nbFold_lists rng (beta g R a.st i) (g.adj i) a
    set A := (g.adj i).foldl (tryInfect rng (beta g R a.st i)) a with hADef
    by_cases hres : (if A.st.color i = Color.red ∧ A.st.infectedDays i ≠ 0 then
        { A with st := { A.st with
          infectedDays := upd A.st.infectedDays i (A.st.infectedDays i - 1) } }
      else A).st.color i = Color.red ∧ A.st.infectedDays i = 0
    · rw [if_pos hres] at h
      have ha2 := Option.some.inj h
      obtain ⟨r1, r2, r3, r4⟩ := resolveNode_lists dr rng i
        (if A.st.color i = Color.red ∧ A.st.infectedDays i ≠ 0 then
          { A with st := { A.st with
            infectedDays := upd A.st.infectedDays i (A.st.infectedDays i - 1) } }
        else A)
      rw [← ha2]
      by_cases hdecr : A.st.color i = Color.red ∧ A.st.infectedDays i ≠ 0
      · rw [if_pos hdecr] at r1 r2 r3 r4 ⊢
        exact ⟨r1.trans f1, r2.trans f2, r3.trans f3, r4.trans f4⟩
      · rw [if_neg hdecr] at r1 r2 r3 r4 ⊢
        exact ⟨r1.trans f1, r2.trans f2, r3.trans f3, r4.trans f4⟩
    · rw [if_neg hres] at h
      have ha2 := Option.some.inj h
      rw [← ha2]
      by_cases hdecr : A.st.color i = Color.red ∧ A.st.infectedDays i ≠ 0
      · rw [if_pos hdecr]
        exact ⟨f1, f2, f3, f4⟩
      · rw [if_neg hdecr]
        exact ⟨f1, f2, f3, f4⟩

theorem poolFoldM_lists {g : Graph} {R dr : ℚ} {rng : RNG} :
    ∀ (l : List Nat) (a a2 : DayAcc),
      l.foldlM (processNode g R dr rng) a = some a2 →
      a2.st.nInfected = a.st.nInfected ∧
      a2.st.nRecovered = a.st.nRecovered ∧
      a2.st.nDead = a.st.nDead ∧
      a2.st.infected = a.st.infected := by
  intro l
  induction l with
  | nil =>
    intro a a2 h
    have := Option.some.inj h
    rw [← this]
    exact ⟨rfl, rfl, rfl, rfl⟩
  | cons i t ih =>
    intro a a2 h
    rw [List.foldlM_cons] at h
    cases hstep : processNode g R dr rng a i with
    | none => rw [hstep] at h; exact absurd h (by simp)
    | some a1 =>
      rw [hstep] at h
      simp only [Option.bind_eq_bind, Option.some_bind] at h
      obtain ⟨h1, h2, h3, h4⟩ := ih a1 a2 h
      obtain ⟨g1, g2, g3, g4⟩ := processNode_lists hstep
      exact ⟨h1.trans g1, h2.trans g2, h3.trans g3, h4.trans g4⟩

theorem dayStep_lengths {g : Graph} {R dr : ℚ} {rng : RNG} {s s2 : SimState}
    (h : dayStep g R dr rng s = some s2) :
    s2.nInfected.length = s.nInfected.length + 1 ∧
    s2.nDead.length = s.nDead.length + 1 ∧
    s2.nRecovered.length = s.nRecovered.length + 1 := by
  unfold dayStep at h
  cases hfold : s.infected.foldlM (processNode g R dr rng) ⟨s, [], 0, 0⟩ with
  | none => rw [hfold] at h; exact absurd h (by simp)
  | some a =>
    rw [hfold] at h
    obtain ⟨h1, h2, h3, _⟩ := poolFoldM_lists s.infected ⟨s, [], 0, 0⟩ a hfold
    have := Option.some.inj h
    rw [← this]
    refine ⟨?_, ?_, ?_⟩
    · show (a.st.nInfected ++ [a.newly.length]).length = s.nInfected.length + 1
      rw [List.length_append, h1]
      rfl
    · show (a.st.nDead ++ [a.newDead]).length = s.nDead.length + 1
      rw [List.length_append, h3]
      rfl
    · show (a.st.nRecovered ++ [a.newRecovered]).length = s.nRecovered.length + 1
      rw [List.length_append, h2]
      rfl

theorem runLoop_lengths {g : Graph} {R dr : ℚ} {rng : RNG} :
    ∀ (n : Nat) (s s' : SimState), runLoop g R dr rng n s = RunOut.done s' →
      s.nInfected.length = s.nDead.length + 1 →
      s.nInfected.length = s.nRecovered.length + 1 →
      s'.nInfected.length = s'.nDead.length + 1 ∧
        s'.nInfected.length = s'.nRecovered.length + 1 := by
  intro n
  induction n with
  | zero =>
    intro s s' h
    exact absurd h (by simp [runLoop])
  | succ n ih =>
    intro s s' h h1 h2
    by_cases hemp : s.infected = []
    · rw [runLoop_done_eq hemp] at h
      cases h
      exact ⟨h1, h2⟩
    · cases hstep : dayStep g R dr rng s with
      | none =>
        rw [runLoop_crash_eq hemp hstep] at h
        exact absurd h (by simp)
      | some s2 =>
        rw [runLoop_step hemp hstep] at h
        obtain ⟨l1, l2, l3⟩ := dayStep_lengths hstep
        exact ih s2 s' h (by omega) (by omega)

theorem stepN_add_one (g : Graph) (R dr : ℚ) (rng : RNG) :
    ∀ (n : Nat) (s : SimState),
      stepN g R dr rng (n + 1) s = (stepN g R dr rng n s).bind (dayStep g R dr rng) := by
  intro n
  induction n with
  | zero =>
    intro s
    show (dayStep g R dr rng s).bind (stepN g R dr rng 0) =
      (stepN g R dr rng 0 s).bind (dayStep g R dr rng)
    cases h : dayStep g R dr rng s with
    | none => simp [stepN, h]
    | some s1 => simp [stepN, h]
  | succ n ih =>
    intro s
    show (dayStep g R dr rng s).bind (stepN g R dr rng (n + 1)) =
      (stepN g R dr rng (n + 1) s).bind (dayStep g R dr rng)
    cases h : dayStep g R dr rng s with
    | none =>
      have hr : stepN g R dr rng (n + 1) s = none := by
        show (dayStep g R dr rng s).bind (stepN g R dr rng n) = none
        rw [h]
        rfl
      rw [hr]
      rfl
    | some s1 =>
      simp only [Option.some_bind]
      have hr : stepN g R dr rng (n + 1) s = stepN g R dr rng n s1 := by
        show (dayStep g R dr rng s).bind (stepN g R dr rng n) = _
        rw [h]
        rfl
      rw [hr]
      exact ih s1

theorem processNode_deg0 {g : Graph} {R dr : ℚ} {rng : RNG} {i : Nat}
    (h : g.degree i = 0) (a : DayAcc) : processNode g R dr rng a i = none := by
  rw [processNode, if_pos (Or.inl h)]

theorem dayStep_crash {g : Graph} {R dr : ℚ} {rng : RNG} {s : SimState} {i : Nat}
    (hi : i ∈ s.infected) (h : g.degree i = 0) :
    dayStep g R dr rng s = none :=
  dayStep_none g R dr rng s
    (foldlM_none (processNode g R dr rng) s.infected hi
      (fun a => processNode_deg0 h a) ⟨s, [], 0, 0⟩)

theorem runLoop_crash_of_deg0 {g : Graph} {R dr : ℚ} {rng : RNG} {n : Nat}
    {s : SimState} {i : Nat} (hi : i ∈ s.infected) (h : g.degree i = 0) :
    runLoop g R dr rng (n + 1) s = RunOut.crash :=
  runLoop_crash_eq
    (fun he => absurd (he ▸ hi) (List.not_mem_nil i))
    (dayStep_crash hi h)

theorem SIR_eq_seed_ok {g : Graph} {rng : RNG} {start : List Nat} {s : SimState}
    (hs : seedLoop g rng initState start = Except.ok s) (R dr : ℚ) (fuel : Nat) :
    SIR g start R dr rng fuel =
      match runLoop g R dr rng fuel { s with nInfected := [s.infected.length] } with
      | RunOut.done s2 => SIROut.done (mkReturn g s2)
      | RunOut.crash => SIROut.crash
      | RunOut.timeout s2 => SIROut.timeout s2 := by
  unfold SIR
  rw [hs]

theorem SIR_eq_seed_err {g : Graph} {rng : RNG} {start : List Nat} {s : SimState}
    (hs : seedLoop g rng initState start = Except.error s) (R dr : ℚ) (fuel : Nat) :
    SIR g start R dr rng fuel = SIROut.seedError s := by
  unfold SIR
  rw [hs]

theorem seed_WF (g : Graph) (rng : RNG) (start : List Nat)
    (hmem : ∀ i ∈ start, i ∈ g.nodes) (hnd : start.Nodup) :
    ∃ s, seedLoop g rng initState start = Except.ok s ∧
      s.infected = start ∧
      WF s ∧
      (∀ v ∈ start, s.infectedDays v = s.totalInfectionTime v) ∧
      s.nInfected = [] ∧ s.nRecovered = [] ∧ s.nDead = [] ∧
      s.recoveredNodes = [] ∧ s.deadNodes = [] := by
  obtain ⟨s, hrun, hpool, hframe, hseeds, hrec, hdead, hnI, hnR, hnD⟩ :=
    seedLoop_ok g rng start initState hmem
  have hpool' : s.infected = start := by
    rw [hpool]
    rfl
  have hcolor : ∀ v, v ∉ start → s.color v = Color.yellow := by
    intro v hv
    rw [(hframe v hv).1]
    rfl
  refine ⟨s, hrun, hpool', ⟨?_, ?_, ?_, ?_, ?_⟩, ?_, hnI, hnR, hnD, hrec, hdead⟩
  · rw [hpool']
    exact hnd
  · intro v
    rw [hpool']
    constructor
    · intro hv
      exact (hseeds v hv).1
    · intro hv
      by_cases h : v ∈ start
      · exact h
      · rw [hcolor v h] at hv
        exact absurd hv (by decide)
  · intro v
    rw [hrec]
    constructor
    · intro hv
      exact absurd hv (List.not_mem_nil v)
    · intro hv
      by_cases h : v ∈ start
      · rw [(hseeds v h).1] at hv
        exact absurd hv (by decide)
      · rw [hcolor v h] at hv
        exact absurd hv (by decide)
  · intro v
    rw [hdead]
    constructor
    · intro hv
      exact absurd hv (List.not_mem_nil v)
    · intro hv
      by_cases h : v ∈ start
      · rw [(hseeds v h).1] at hv
        exact absurd hv (by decide)
      · rw [hcolor v h] at hv
        exact absurd hv (by decide)
  · intro v hv
    rw [hpool'] at hv
    exact (hseeds v hv).2.1
  · intro v hv
    exact ((hseeds v hv).2.2).trans rfl |>.symm ▸ (hseeds v hv).2.2

theorem stepN_traj (g : Graph) (R dr : ℚ) (rng : RNG) (hS : g.Symm) :
    ∀ (k D : Nat) (s : SimState) (i : Nat), WF s → DegOK g s → i ∈ s.infected →
      s.infectedDays i = D → k ≤ D →
      ∃ sk, stepN g R dr rng k s = some sk ∧ WF sk ∧ DegOK g sk ∧
        i ∈ sk.infected ∧ sk.color i = Color.red ∧ sk.infectedDays i = D - k := by
  intro k
  induction k with
  | zero =>
    intro D s i hWF hDeg hi hD _
    exact ⟨s, rfl, hWF, hDeg, hi, (hWF.2.1 i).mp hi, by simpa using hD⟩
  | succ k ih =>
    intro D s i hWF hDeg hi hD hk
    have hne : s.infectedDays i ≠ 0 := by omega
    obtain ⟨s', hstep, hWF', hDeg', _, _, hdays, _, _, _⟩ :=
      dayStep_ok g R dr rng s hS hWF hDeg
    obtain ⟨hin', hred', hd', ht'⟩ := (hdays i hi).1 hne
    have hd2 : s'.infectedDays i = D - 1 := by rw [hd', hD]
    obtain ⟨sk, hrun, hWFk, hDegk, hik, hredk, hdk⟩ :=
      ih (D - 1) s' i hWF' hDeg' hin' hd2 (by omega)
    refine ⟨sk, ?_, hWFk, hDegk, hik, hredk, by rw [hdk]; omega⟩
    show (dayStep g R dr rng s).bind (stepN g R dr rng k) = some sk
    rw [hstep]
    simpa using hrun

theorem stepN_resolve (g : Graph) (R dr : ℚ) (rng : RNG) (hS : g.Symm)
    (D : Nat) (s : SimState) (i : Nat) (hWF : WF s) (hDeg : DegOK g s)
    (hi : i ∈ s.infected) (hD : s.infectedDays i = D) :
    ∃ sf, stepN g R dr rng (D + 1) s = some sf ∧
      (sf.color i = Color.blue ∨ sf.color i = Color.black) ∧ i ∉ sf.infected := by
  obtain ⟨sD, hrun, hWFD, hDegD, hiD, hredD, hdD⟩ :=
    stepN_traj g R dr rng hS D D s i hWF hDeg hi hD le_rfl
  have hdD0 : sD.infectedDays i = 0 := by omega
  obtain ⟨s', hstep, _, _, _, _, hdays, _, _, _⟩ :=
    dayStep_ok g R dr rng sD hS hWFD hDegD
  obtain ⟨hcol, hnin⟩ := (hdays i hiD).2 hdD0
  refine ⟨s', ?_, hcol, hnin⟩
  rw [stepN_add_one, hrun]
  simpa using hstep

theorem beta_nonpos {g : Graph} {R : ℚ} (hR : R ≤ 0) (st : SimState) (i : Nat) :
    beta g R st i ≤ 0 := by
  unfold beta
  have h0 : (0 : ℚ) ≤ (g.degree i : ℚ) := Nat.cast_nonneg _
  have h1 : R / (g.degree i : ℚ) ≤ 0 := div_nonpos_iff.mpr (Or.inr ⟨hR, h0⟩)
  exact div_nonpos_iff.mpr (Or.inr ⟨h1, Nat.cast_nonneg _⟩)

theorem tryInfect_nonpos {rng : RNG} {b : ℚ} {a : DayAcc} {j : Nat}
    (hb : b ≤ 0) (hu : ∀ k, 0 ≤ rng.unif k) :
    (tryInfect rng b a j).st.color = a.st.color := by
  by_cases hy : a.st.color j = Color.yellow
  · have hnu : ¬ rng.unif a.st.uIdx < b := not_lt.mpr (hb.trans (hu _))
    rw [tryInfect_miss hy hnu]
  · rw [tryInfect_not_yellow hy]

theorem nbFold_nonpos {rng : RNG} {b : ℚ} (hb : b ≤ 0) (hu : ∀ k, 0 ≤ rng.unif k) :
    ∀ (l : List Nat) (a : DayAcc),
      (l.foldl (tryInfect rng b) a).st.color = a.st.color := by
  intro l
  induction l with
  | nil => intro a; rfl
  | cons j t ih =>
    intro a
    rw [List.foldl_cons]
    exact (ih (tryInfect rng b a j)).trans (tryInfect_nonpos hb hu)

theorem processNode_yellow {g : Graph} {R dr : ℚ} {rng : RNG} {a : DayAcc}
    {i : Nat} {a2 : DayAcc} (hR : R ≤ 0) (hu : ∀ k, 0 ≤ rng.unif k)
    (h : processNode g R dr rng a i = some a2) :
    ∀ v, a.st.color v = Color.yellow → a2.st.color v = Color.yellow := by
  intro v hv
  by_cases hcond : g.degree i = 0 ∨ a.st.totalInfectionTime i = 0
  · rw [processNode, if_pos hcond] at h
    exact absurd h (by simp)
  · rw [processNode, if_neg hcond] at h
    have hcols : ((g.adj i).foldl (tryInfect rng (beta g R a.st i)) a).st.color
        = a.st.color :=
      nbFold_nonpos (beta_nonpos hR a.st i) hu (g.adj i) a
    set A := (g.adj i).foldl (tryInfect rng (beta g R a.st i)) a with hADef
    set A2 := (if A.st.color i = Color.red ∧ A.st.infectedDays i ≠ 0 then
        { A with st := { A.st with
          infectedDays := upd A.st.infectedDays i (A.st.infectedDays i - 1) } }
      else A) with hA2Def
    have hcols2 : A2.st.color = a.st.color := by
      rw [hA2Def]
      by_cases hdecr : A.st.color i = Color.red ∧ A.st.infectedDays i ≠ 0
      · rw [if_pos hdecr]
        exact hcols
      · rw [if_neg hdecr]
        exact hcols
    by_cases hres : A2.st.color i = Color.red ∧ A.st.infectedDays i = 0
    · rw [if_pos hres] at h
      have ha2 := Option.some.inj h
      rw [← ha2]
      have hired : a.st.color i = Color.red := by
        rw [← congrFun hcols2 i]
        exact hres.1
      have hvi : v ≠ i := fun he => by
        rw [he, hired] at hv
        exact absurd hv (by decide)
      by_cases hud : rng.unif A2.st.uIdx < dr
      · rw [resolveNode_dead hud]
        show upd A2.st.color i Color.black v = Color.yellow
        rw [upd_ne _ _ hvi, congrFun hcols2 v]
        exact hv
      · rw [resolveNode_live hud]
        show upd A2.st.color i Color.blue v = Color.yellow
        rw [upd_ne _ _ hvi, congrFun hcols2 v]
        exact hv
    · rw [if_neg hres] at h
      have ha2 := Option.some.inj h
      rw [← ha2, congrFun hcols2 v]
      exact hv

theorem poolFoldM_yellow {g : Graph} {R dr : ℚ} {rng : RNG}
    (hR : R ≤ 0) (hu : ∀ k, 0 ≤ rng.unif k) :
    ∀ (l : List Nat) (a a2 : DayAcc),
      l.foldlM (processNode g R dr rng) a = some a2 →
      ∀ v, a.st.color v = Color.yellow → a2.st.color v = Color.yellow := by
  intro l
  induction l with
  | nil =>
    intro a a2 h v hv
    have := Option.some.inj h
    rw [← this]
    exact hv
  | cons i t ih =>
    intro a a2 h v hv
    rw [List.foldlM_cons] at h
    cases hstep : processNode g R dr rng a i with
    | none =>
      rw [hstep] at h
      exact absurd h (by simp)
    | some a1 =>
      rw [hstep] at h
      simp only [Option.bind_eq_bind, Option.some_bind] at h
      exact ih a1 a2 h v (processNode_yellow hR hu hstep v hv)

theorem dayStep_yellow {g : Graph} {R dr : ℚ} {rng : RNG} {s s2 : SimState}
    (hR : R ≤ 0) (hu : ∀ k, 0 ≤ rng.unif k)
    (h : dayStep g R dr rng s = some s2) :
    ∀ v, s.color v = Color.yellow → s2.color v = Color.yellow := by
  intro v hv
  unfold dayStep at h
  cases hfold : s.infected.foldlM (processNode g R dr rng) ⟨s, [], 0, 0⟩ with
  | none =>
    rw [hfold] at h
    exact absurd h (by simp)
  | some a =>
    rw [hfold] at h
    have := Option.some.inj h
    rw [← this]
    show a.st.color v = Color.yellow
    exact poolFoldM_yellow hR hu s.infected ⟨s, [], 0, 0⟩ a hfold v hv

theorem seedLoop_ok_infected (g : Graph) (rng : RNG) :
    ∀ (l : List Nat) (s t : SimState), seedLoop g rng s l = Except.ok t →
      t.infected = s.infected ++ l := by
  intro l
  induction l with
  | nil =>
    intro s t h
    rw [seedLoop_nil] at h
    cases h
    simp
  | cons i rest ih =>
    intro s t h
    by_cases hi : i ∈ g.nodes
    · rw [seedLoop_cons_mem hi] at h
      have := ih _ _ h
      rw [this]
      simp
    · rw [seedLoop_cons_err hi] at h
      exact absurd h (by simp)

theorem seedLoop_colors (g : Graph) (rng : RNG) :
    ∀ (l : List Nat) (s t : SimState),
      (∀ v, s.color v = Color.yellow ∨ s.color v = Color.red) →
      seedLoop g rng s l = Except.ok t →
      ∀ v, t.color v = Color.yellow ∨ t.color v = Color.red := by
  intro l
  induction l with
  | nil =>
    intro s t hcol h
    rw [seedLoop_nil] at h
    cases h
    exact hcol
  | cons i rest ih =>
    intro s t hcol h
    by_cases hi : i ∈ g.nodes
    · rw [seedLoop_cons_mem hi] at h
      refine ih _ _ ?_ h
      intro v
      by_cases hvi : v = i
      · subst hvi
        right
        show upd s.color v Color.red v = Color.red
        exact upd_same _ _ _
      · show upd s.color i Color.red v = Color.yellow ∨
          upd s.color i Color.red v = Color.red
        rw [upd_ne _ _ hvi]
        exact hcol v
    · rw [seedLoop_cons_err hi] at h
      exact absurd h (by simp)

theorem dayStep_series {g : Graph} {R dr : ℚ} {rng : RNG} {s s2 : SimState}
    (h : dayStep g R dr rng s = some s2) :
    ∃ x y z, s2.nInfected = s.nInfected ++ [x] ∧
      s2.nDead = s.nDead ++ [y] ∧ s2.nRecovered = s.nRecovered ++ [z] := by
  unfold dayStep at h
  cases hfold : s.infected.foldlM (processNode g R dr rng) ⟨s, [], 0, 0⟩ with
  | none =>
    rw [hfold] at h
    exact absurd h (by simp)
  | some a =>
    rw [hfold] at h
    obtain ⟨h1, h2, h3, _⟩ := poolFoldM_lists s.infected ⟨s, [], 0, 0⟩ a hfold
    have := Option.some.inj h
    rw [← this]
    refine ⟨a.newly.length, a.newDead, a.newRecovered, ?_, ?_, ?_⟩
    · show a.st.nInfected ++ [a.newly.length] = s.nInfected ++ [a.newly.length]
      rw [h1]
    · show a.st.nDead ++ [a.newDead] = s.nDead ++ [a.newDead]
      rw [h3]
    · show a.st.nRecovered ++ [a.newRecovered] = s.nRecovered ++ [a.newRecovered]
      rw [h2]

theorem runLoop_series {g : Graph} {R dr : ℚ} {rng : RNG} {c : Nat} :
    ∀ (n : Nat) (s s' : SimState), runLoop g R dr rng n s = RunOut.done s' →
      s.nInfected.length = s.nDead.length + 1 →
      s.nInfected.length = s.nRecovered.length + 1 →
      s.nInfected.head? = some c →
      s'.nInfected.length = s'.nDead.length + 1 ∧
        s'.nInfected.length = s'.nRecovered.length + 1 ∧
        s'.nInfected.head? = some c := by
  intro n
  induction n with
  | zero =>
    intro s s' h
    exact absurd h (by simp [runLoop])
  | succ n ih =>
    intro s s' h h1 h2 h3
    by_cases hemp : s.infected = []
    · rw [runLoop_done_eq hemp] at h
      cases h
      exact ⟨h1, h2, h3⟩
    · cases hstep : dayStep g R dr rng s with
      | none =>
        rw [runLoop_crash_eq hemp hstep] at h
        exact absurd h (by simp)
      | some s2 =>
        rw [runLoop_step hemp hstep] at h
        obtain ⟨x, y, z, e1, e2, e3⟩ := dayStep_series hstep
        have hne : s.nInfected ≠ [] := by
          intro he
          rw [he] at h1
          simp at h1
        refine ih s2 s' h ?_ ?_ ?_
        · rw [e1, e2]
          simp
          omega
        · rw [e1, e3]
          simp
          omega
        · rw [e1]
          cases hl : s.nInfected with
          | nil => exact absurd hl hne
          | cons w ws =>
            rw [hl] at h3
            simpa using h3

theorem pathG_symm : pathG.Symm := by
  intro u v h
  by_cases hv0 : v = 0
  · subst hv0
    simp only [pathG] at h ⊢
    simp at h
    subst h
    simp
  · by_cases hv1 : v = 1
    · subst hv1
      simp only [pathG] at h ⊢
      simp [hv0] at h
      subst h
      simp
    · simp only [pathG] at h
      simp [hv0, hv1] at h

theorem pathG_adjClosed : pathG.AdjClosed := by
  intro i j h
  by_cases h0 : i = 0
  · subst h0
    simp only [pathG] at h ⊢
    simp at h
    subst h
    simp
  · by_cases h1 : i = 1
    · subst h1
      simp only [pathG] at h ⊢
      simp [h0] at h
      subst h
      simp
    · simp only [pathG] at h
      simp [h0, h1] at h

theorem wState_WF : WF wState := by
  refine ⟨by simp [wState], ?_, ?_, ?_, ?_⟩
  · intro v
    by_cases h : v = 0
    · subst h
      simp [wState, upd]
    · simp [wState, upd, h]
  · intro v
    by_cases h : v = 0
    · subst h
      simp [wState, upd]
    · simp [wState, upd, h]
  · intro v
    by_cases h : v = 0
    · subst h
      simp [wState, upd]
    · simp [wState, upd, h]
  · intro v hv
    have hv0 : v = 0 := by simpa [wState] using hv
    subst hv0
    decide

theorem wState_DegOK : DegOK pathG wState := by
  intro v hv
  have hv0 : v = 0 := by simpa [wState] using hv
  subst hv0
  decide

/-- C1 (corrected): in the code, a node whose infectious duration is
`D` stays in the transmitting pool for day-steps 1 through D+1 and is
resolved to Recovered or Dead only during day-step D+1 — one day-step
AFTER the one in which its `days_remaining` is decremented to 0. The
code reads `days_infected_i` (line 114) before the decrement and
resolves (line 121) only when that pre-decrement value is already 0,
so for every well-formed state whose pool contains `i` with
`days_remaining = D`, the first D day-steps leave `i` Infected with
`days_remaining` counting down to 0, and step D+1 resolves it. -/
theorem C1_resolution_one_step_late (g : Graph) (R dr : ℚ) (rng : RNG)
    (s : SimState) (i D : Nat) (hS : g.Symm) (hWF : WF s) (hDeg : DegOK g s)
    (hi : i ∈ s.infected) (hD : s.infectedDays i = D) :
    (∀ k, k ≤ D → ∃ sk, stepN g R dr rng k s = some sk ∧
      i ∈ sk.infected ∧ sk.color i = Color.red ∧ sk.infectedDays i = D - k) ∧
    (∃ sf, stepN g R dr rng (D + 1) s = some sf ∧
      (sf.color i = Color.blue ∨ sf.color i = Color.black) ∧ i ∉ sf.infected) := by
  constructor
  · intro k hk
    obtain ⟨sk, h1, _, _, h2, h3, h4⟩ :=
      stepN_traj g R dr rng hS k D s i hWF hDeg hi hD hk
    exact ⟨sk, h1, h2, h3, h4⟩
  · exact stepN_resolve g R dr rng hS D s i hWF hDeg hi hD

theorem C1_resolution_one_step_late_witness :
    pathG.Symm ∧ WF wState ∧ DegOK pathG wState ∧ 0 ∈ wState.infected ∧
    wState.infectedDays 0 = 1 ∧
    ((∀ k, k ≤ 1 → ∃ sk, stepN pathG (1/10) 0 oneRng k wState = some sk ∧
      0 ∈ sk.infected ∧ sk.color 0 = Color.red ∧ sk.infectedDays 0 = 1 - k) ∧
    (∃ sf, stepN pathG (1/10) 0 oneRng (1 + 1) wState = some sf ∧
      (sf.color 0 = Color.blue ∨ sf.color 0 = Color.black) ∧ 0 ∉ sf.infected)) :=
  ⟨pathG_symm, wState_WF, wState_DegOK, by decide, by decide,
    C1_resolution_one_step_late pathG (1/10) 0 oneRng wState 0 1
      pathG_symm wState_WF wState_DegOK (by decide) (by decide)⟩

/-- C1 counterexample: node 0 is seeded with duration D = 1 on the
two-node path with draws that produce no transmission. After day-step
1 — the very step in which its `days_remaining` is decremented from 1
to 0 — node 0 is still Infected (red) with empty recovered and dead
lists: resolution did not happen on day-step D as the claim states. -/
theorem C1_same_day_resolution_false :
    (seededState pathG oneRng [0]).map
        (fun t => (t.infectedDays 0, t.totalInfectionTime 0)) = some (1, 1) ∧
    ((seededState pathG oneRng [0]).bind (stepN pathG (1/10) 0 oneRng 1)).map
        (fun t => (t.color 0, t.infectedDays 0, t.recoveredNodes, t.deadNodes))
      = some (Color.red, 0, [], []) := by
  exact ⟨by decide, by decide⟩

/-- C2 (corrected): when a degree-0 node is in the infectious pool,
line 94 divides `R` by its degree 0, so the run aborts with Python's
`ZeroDivisionError` instead of skipping the node's transmission step:
any run seeding a degree-0 node crashes on its first day-step. -/
theorem C2_degree_zero_crashes (g : Graph) (start : List Nat) (R dr : ℚ)
    (rng : RNG) (fuel : Nat) (i : Nat)
    (hmem : ∀ j ∈ start, j ∈ g.nodes) (hi : i ∈ start) (hdeg : g.degree i = 0) :
    SIR g start R dr rng (fuel + 1) = SIROut.crash := by
  obtain ⟨s, hrun, hpool, _, _, _, _, _, _, _⟩ := seedLoop_ok g rng start initState hmem
  rw [SIR_eq_seed_ok hrun]
  have hpool' : s.infected = start := by
    rw [hpool]
    rfl
  have hi2 : i ∈ ({ s with nInfected := [s.infected.length] } : SimState).infected := by
    show i ∈ s.infected
    rw [hpool']
    exact hi
  rw [runLoop_crash_of_deg0 hi2 hdeg]

theorem C2_degree_zero_crashes_witness :
    (∀ j ∈ [2, 0], j ∈ isoG.nodes) ∧ 2 ∈ [2, 0] ∧ isoG.degree 2 = 0 ∧
    SIR isoG [2, 0] (22/10) (1/20) oneRng (4 + 1) = SIROut.crash :=
  ⟨by decide, by decide, by decide,
    C2_degree_zero_crashes isoG [2, 0] (22/10) (1/20) oneRng 4 2
      (by decide) (by decide) (by decide)⟩

/-- C2 counterexample: seeding the isolated (degree-0) node 2 of a
graph that is otherwise the single edge `0 -- 1` crashes the run with
`ZeroDivisionError`; it does not skip the transmission step and
proceed with the countdown. -/
theorem C2_no_crash_false :
    (SIR isoG [2] (22/10) (1/20) oneRng 5).isCrash = true := by decide

/-- C3 (corrected): the code performs no parameter validation at all:
no run is rejected at start for `R ≤ 0` or `death_rate` outside
[0,1]; the simulation simply proceeds. With `R ≤ 0` the transmission
probability `beta` is nonpositive, so — since `np.random.rand` draws
are nonnegative — no susceptible node is ever infected in any
completed day-step. -/
theorem C3_no_parameter_validation (g : Graph) (R dr : ℚ) (rng : RNG)
    (s s2 : SimState) (hR : R ≤ 0) (hu : ∀ k, 0 ≤ rng.unif k)
    (hstep : dayStep g R dr rng s = some s2) :
    ∀ v, s.color v = Color.yellow → s2.color v = Color.yellow :=
  dayStep_yellow hR hu hstep

theorem C3_no_parameter_validation_witness :
    ((-1 : ℚ) ≤ 0) ∧ (∀ k, 0 ≤ oneRng.unif k) ∧
    ∃ s2, dayStep pathG (-1) 2 oneRng wState = some s2 ∧
      ∀ v, wState.color v = Color.yellow → s2.color v = Color.yellow := by
  refine ⟨by norm_num, fun k => by norm_num [oneRng], ?_⟩
  cases h : dayStep pathG (-1) 2 oneRng wState with
  | none =>
    have hs : (dayStep pathG (-1) 2 oneRng wState).isSome = true := by decide
    rw [h] at hs
    simp at hs
  | some s2 =>
    exact ⟨s2, rfl,
      C3_no_parameter_validation pathG (-1) 2 oneRng wState s2 (by norm_num)
        (fun k => by norm_num [oneRng]) h⟩

/-- C3 counterexample: a call with `R = -1 ≤ 0` and `death_rate = 2`
outside [0,1] is not rejected at start: the run proceeds to normal
completion, returning these day series and terminal lists (the single
seed dies because every uniform draw 1/2 is below `death_rate = 2`). -/
theorem C3_invalid_params_accepted :
    (SIR pathG [0] (-1) 2 oneRng 5).retOf =
      some ⟨[1, 0, 0], [0, 1], [0, 0], [0], [], [1]⟩ := by decide

/-- C4 (corrected): a seed absent from the graph raises `KeyError` at
line 64, so the run aborts during seeding and never reaches the day
loop — but the abort is not atomic: at the moment of the error every
earlier (valid) seed of the list has already been marked Infected in
the simulator's working state. -/
theorem C4_unknown_seed_not_atomic (g : Graph) (rng : RNG) (pre : List Nat)
    (b : Nat) (rest : List Nat) (R dr : ℚ) (fuel : Nat)
    (hpre : ∀ i ∈ pre, i ∈ g.nodes) (hb : b ∉ g.nodes) :
    ∃ s', SIR g (pre ++ b :: rest) R dr rng fuel = SIROut.seedError s' ∧
      ∀ v ∈ pre, s'.color v = Color.red := by
  obtain ⟨s', herr, hpre', _⟩ := seedLoop_err g rng pre b rest initState hpre hb
  exact ⟨s', SIR_eq_seed_err herr R dr fuel, hpre'⟩

theorem C4_unknown_seed_not_atomic_witness :
    (∀ i ∈ [0], i ∈ pathG.nodes) ∧ 7 ∉ pathG.nodes ∧
    ∃ s', SIR pathG ([0] ++ 7 :: []) (22/10) (1/20) oneRng 5 = SIROut.seedError s' ∧
      ∀ v ∈ [0], s'.color v = Color.red :=
  ⟨by decide, by decide,
    C4_unknown_seed_not_atomic pathG oneRng [0] 7 [] (22/10) (1/20) 5
      (by decide) (by decide)⟩

/-- C4 counterexample: with seed list [0, 7] on the two-node graph
(node 7 does not exist), the run does fail during seeding — but in
the state carried by the error, node 0's health record has already
been changed to Infected (red), contradicting the claimed atomicity. -/
theorem C4_atomic_abort_false :
    (SIR pathG [0, 7] (22/10) (1/20) oneRng 5).errColor 0 = some Color.red := by
  decide

theorem seedLoop_ok_series (g : Graph) (rng : RNG) :
    ∀ (l : List Nat) (s t : SimState), seedLoop g rng s l = Except.ok t →
      t.nInfected = s.nInfected ∧ t.nDead = s.nDead ∧ t.nRecovered = s.nRecovered := by
  intro l
  induction l with
  | nil =>
    intro s t h
    rw [seedLoop_nil] at h
    cases h
    exact ⟨rfl, rfl, rfl⟩
  | cons i rest ih =>
    intro s t h
    by_cases hi : i ∈ g.nodes
    · rw [seedLoop_cons_mem hi] at h
      obtain ⟨e1, e2, e3⟩ := ih _ _ h
      exact ⟨e1, e2, e3⟩
    · rw [seedLoop_cons_err hi] at h
      exact absurd h (by simp)

/-- C5: for every finite undirected graph (symmetric, adjacency-closed
neighbor structure), every nonempty duplicate-free seed list of graph
nodes in which each seed has degree at least 1, every `R > 0` and
`death_rate` in [0,1], and every sequence of random draws, enough fuel
makes the day-stepped while loop terminate: the run completes normally,
ending the first day the infected pool is empty. -/
theorem C5_termination (g : Graph) (start : List Nat) (R dr : ℚ) (rng : RNG)
    (hS : g.Symm) (hAC : g.AdjClosed) (hne : start ≠ []) (hnd : start.Nodup)
    (hmem : ∀ i ∈ start, i ∈ g.nodes) (hdeg : ∀ i ∈ start, 1 ≤ g.degree i)
    (hR : 0 < R) (hdr0 : 0 ≤ dr) (hdr1 : dr ≤ 1) :
    ∃ fuel r, SIR g start R dr rng fuel = SIROut.done r := by
  obtain ⟨s, hrun, hpool, hWFs, _, _, _, _, _, _⟩ := seed_WF g rng start hmem hnd
  have hWF1 : WF { s with nInfected := [s.infected.length] } := hWFs
  have hDeg1 : DegOK g { s with nInfected := [s.infected.length] } := by
    intro v hv
    have hv2 : v ∈ start := by
      rw [← hpool]
      exact hv
    exact hdeg v hv2
  obtain ⟨n, s', hloop, _⟩ :=
    runLoop_term g R dr rng hS hAC
      (ycount g { s with nInfected := [s.infected.length] })
      (poolMeasure { s with nInfected := [s.infected.length] })
      { s with nInfected := [s.infected.length] } hWF1 hDeg1 rfl rfl
  refine ⟨n, mkReturn g s', ?_⟩
  rw [SIR_eq_seed_ok hrun, hloop]

theorem C5_termination_witness :
    pathG.Symm ∧ pathG.AdjClosed ∧ ([0] : List Nat) ≠ [] ∧
    ([0] : List Nat).Nodup ∧ (∀ i ∈ [0], i ∈ pathG.nodes) ∧
    (∀ i ∈ [0], 1 ≤ pathG.degree i) ∧ ((0 : ℚ) < 22/10) ∧
    ((0 : ℚ) ≤ 1/20) ∧ ((1/20 : ℚ) ≤ 1) ∧
    ∃ fuel r, SIR pathG [0] (22/10) (1/20) oneRng fuel = SIROut.done r :=
  ⟨pathG_symm, pathG_adjClosed, by decide, by decide, by decide, by decide,
    by decide, by decide, by decide,
    C5_termination pathG [0] (22/10) (1/20) oneRng pathG_symm pathG_adjClosed
      (by decide) (by decide) (by decide) (by decide) (by decide) (by decide)
      (by decide)⟩

/-- C6: across one day-step from a well-formed day-boundary state,
every node's state is exactly one of the four colors, and per-node
state changes move only forward along
Susceptible → Infected → Recovered-or-Dead: no node re-enters
Susceptible and no node leaves Recovered or Dead; moreover seeding the
pristine network produces only Susceptible or Infected nodes. -/
theorem C6_forward_partition (g : Graph) (R dr : ℚ) (rng : RNG)
    (s s' : SimState) (l : List Nat) (t : SimState)
    (hS : g.Symm) (hWF : WF s) (hDeg : DegOK g s)
    (hstep : dayStep g R dr rng s = some s')
    (hseed : seedLoop g rng initState l = Except.ok t) :
    (∀ v, [Color.yellow, Color.red, Color.black, Color.blue].count (s'.color v) = 1) ∧
    (∀ v, colorLe (s.color v) (s'.color v)) ∧
    (∀ v, s'.color v = Color.yellow → s.color v = Color.yellow) ∧
    (∀ v, s.color v = Color.blue → s'.color v = Color.blue) ∧
    (∀ v, s.color v = Color.black → s'.color v = Color.black) ∧
    (∀ v, t.color v = Color.yellow ∨ t.color v = Color.red) := by
  obtain ⟨s'', hstep2, _, _, hmono, hyback, _, _, _, _⟩ :=
    dayStep_ok g R dr rng s hS hWF hDeg
  rw [hstep] at hstep2
  have he := Option.some.inj hstep2
  subst he
  refine ⟨?_, hmono, hyback, ?_, ?_, ?_⟩
  · intro v
    cases hcv : s'.color v <;> decide
  · intro v hv
    have hm := hmono v
    rw [hv] at hm
    exact colorLe_blue_left hm
  · intro v hv
    have hm := hmono v
    rw [hv] at hm
    exact colorLe_black_left hm
  · exact seedLoop_colors g rng l initState t (fun v => Or.inl rfl) hseed

theorem C6_forward_partition_witness :
    ∃ s' t, dayStep pathG (1/10) 0 oneRng wState = some s' ∧
      seedLoop pathG oneRng initState [0] = Except.ok t ∧
      ((∀ v, [Color.yellow, Color.red, Color.black, Color.blue].count (s'.color v) = 1) ∧
      (∀ v, colorLe (wState.color v) (s'.color v)) ∧
      (∀ v, s'.color v = Color.yellow → wState.color v = Color.yellow) ∧
      (∀ v, wState.color v = Color.blue → s'.color v = Color.blue) ∧
      (∀ v, wState.color v = Color.black → s'.color v = Color.black) ∧
      (∀ v, t.color v = Color.yellow ∨ t.color v = Color.red)) := by
  cases h : dayStep pathG (1/10) 0 oneRng wState with
  | none =>
    have hs : (dayStep pathG (1/10) 0 oneRng wState).isSome = true := by decide
    rw [h] at hs
    simp at hs
  | some s' =>
    cases ht : seedLoop pathG oneRng initState [0] with
    | error t =>
      have hs : (seededState pathG oneRng [0]).isSome = true := by decide
      rw [seededState, ht] at hs
      simp at hs
    | ok t =>
      exact ⟨s', t, rfl, rfl,
        C6_forward_partition pathG (1/10) 0 oneRng wState s' [0] t
          pathG_symm wState_WF wState_DegOK h ht⟩

/-- C7: during a day-step from a well-formed day-boundary state, only
nodes of the infected-pool snapshot taken at the start of the step
transmit: every node newly infected during the step is a neighbor of a
member of that snapshot, was not itself in the snapshot, and joins the
pool only for the following day-step. -/
theorem C7_snapshot_pool (g : Graph) (R dr : ℚ) (rng : RNG) (s s' : SimState)
    (hS : g.Symm) (hWF : WF s) (hDeg : DegOK g s)
    (hstep : dayStep g R dr rng s = some s') (v : Nat)
    (hy : s.color v = Color.yellow) (hr : s'.color v = Color.red) :
    (∃ i ∈ s.infected, v ∈ g.adj i) ∧ v ∉ s.infected ∧ v ∈ s'.infected := by
  obtain ⟨s'', hstep2, _, _, _, _, _, hnew, _, _⟩ :=
    dayStep_ok g R dr rng s hS hWF hDeg
  rw [hstep] at hstep2
  have he := Option.some.inj hstep2
  subst he
  obtain ⟨h1, h2, h3⟩ := hnew v hy hr
  exact ⟨h1, h3, h2⟩

theorem C7_snapshot_pool_witness : ∃ s',
    dayStep pathG 2 0 oneRng wState = some s' ∧
    wState.color 1 = Color.yellow ∧ s'.color 1 = Color.red ∧
    ((∃ i ∈ wState.infected, 1 ∈ pathG.adj i) ∧
      1 ∉ wState.infected ∧ 1 ∈ s'.infected) := by
  cases h : dayStep pathG 2 0 oneRng wState with
  | none =>
    have hs : (dayStep pathG 2 0 oneRng wState).isSome = true := by decide
    rw [h] at hs
    simp at hs
  | some s' =>
    have hy : wState.color 1 = Color.yellow := by decide
    have hr : s'.color 1 = Color.red := by
      have hm : (dayStep pathG 2 0 oneRng wState).map (fun u => u.color 1)
          = some Color.red := by decide
      rw [h] at hm
      exact Option.some.inj hm
    exact ⟨s', rfl, hy, hr,
      C7_snapshot_pool pathG 2 0 oneRng wState s' pathG_symm wState_WF
        wState_DegOK h 1 hy hr⟩

/-- C8: the per-neighbor transmission probability computed at line 94
is exactly `R / degree(i) / total_infection_duration(i)`, and with the
duration held fixed, doubling the degree exactly halves it. -/
theorem C8_beta_degree_halving (g1 g2 : Graph) (R : ℚ) (s1 s2 : SimState)
    (i : Nat) (hdeg : 1 ≤ g1.degree i) (hdouble : g2.degree i = 2 * g1.degree i)
    (htot : s2.totalInfectionTime i = s1.totalInfectionTime i) :
    beta g1 R s1 i = R / (g1.degree i : ℚ) / (s1.totalInfectionTime i : ℚ) ∧
    beta g2 R s2 i = beta g1 R s1 i / 2 := by
  refine ⟨rfl, ?_⟩
  unfold beta
  rw [hdouble, htot]
  push_cast
  ring

theorem C8_beta_degree_halving_witness :
    1 ≤ pathG.degree 0 ∧ starG.degree 0 = 2 * pathG.degree 0 ∧
    wState.totalInfectionTime 0 = wState.totalInfectionTime 0 ∧
    (beta pathG (22/10) wState 0 =
      (22/10 : ℚ) / (pathG.degree 0 : ℚ) / (wState.totalInfectionTime 0 : ℚ) ∧
    beta starG (22/10) wState 0 = beta pathG (22/10) wState 0 / 2) :=
  ⟨by decide, by decide, rfl,
    C8_beta_degree_halving pathG starG (22/10) wState wState 0
      (by decide) (by decide) rfl⟩

/-- C9: the simulation is a pure function of the graph, seed list,
parameters and the two random draw streams: two runs consuming
pointwise-identical draw sequences return identical outcomes. -/
theorem C9_determinism (g : Graph) (start : List Nat) (R dr : ℚ)
    (rng1 rng2 : RNG) (fuel : Nat)
    (hn : ∀ k, rng1.normalInt k = rng2.normalInt k)
    (hu : ∀ k, rng1.unif k = rng2.unif k) :
    SIR g start R dr rng1 fuel = SIR g start R dr rng2 fuel := by
  have he : rng1 = rng2 := by
    cases rng1 with
    | mk n1 u1 =>
      cases rng2 with
      | mk n2 u2 =>
        have hn2 : n1 = n2 := funext hn
        have hu2 : u1 = u2 := funext hu
        rw [hn2, hu2]
  rw [he]

theorem C9_determinism_witness :
    (∀ k, oneRng.normalInt k = twinRng.normalInt k) ∧
    (∀ k, oneRng.unif k = twinRng.unif k) ∧
    SIR pathG [0] (22/10) (1/20) oneRng 5 = SIR pathG [0] (22/10) (1/20) twinRng 5 :=
  ⟨fun _ => rfl, fun _ => rfl,
    C9_determinism pathG [0] (22/10) (1/20) oneRng twinRng 5
      (fun _ => rfl) (fun _ => rfl)⟩

/-- C10: in every completed run the three returned per-day series are
misaligned exactly as the code builds them: `n_infected` has one more
entry than `n_dead` and than `n_recovered`, and its first entry is the
seed count (it is pre-seeded with `len(infected)` before the loop,
while the other two start empty and all three gain one entry per
day). -/
theorem C10_series_misaligned (g : Graph) (start : List Nat) (R dr : ℚ)
    (rng : RNG) (fuel : Nat) (r : SIRReturn)
    (h : SIR g start R dr rng fuel = SIROut.done r) :
    r.n_infected.length = r.n_dead.length + 1 ∧
    r.n_infected.length = r.n_recovered.length + 1 ∧
    r.n_infected.head? = some start.length := by
  cases hs : seedLoop g rng initState start with
  | error t =>
    rw [SIR_eq_seed_err hs R dr fuel] at h
    exact SIROut.noConfusion h
  | ok t =>
    rw [SIR_eq_seed_ok hs R dr fuel] at h
    cases hr : runLoop g R dr rng fuel { t with nInfected := [t.infected.length] } with
    | crash =>
      rw [hr] at h
      have h2 : SIROut.crash = SIROut.done r := h
      exact SIROut.noConfusion h2
    | timeout t2 =>
      rw [hr] at h
      have h2 : SIROut.timeout t2 = SIROut.done r := h
      exact SIROut.noConfusion h2
    | done t2 =>
      rw [hr] at h
      have h2 : SIROut.done (mkReturn g t2) = SIROut.done r := h
      have hreq : mkReturn g t2 = r := by
        injection h2
      have hinf : t.infected = start := by
        have := seedLoop_ok_infected g rng start initState t hs
        rw [this]
        rfl
      obtain ⟨e1, e2, e3⟩ := seedLoop_ok_series g rng start initState t hs
      have l1 : ({ t with nInfected := [t.infected.length] } : SimState).nInfected.length
          = ({ t with nInfected := [t.infected.length] } : SimState).nDead.length + 1 := by
        show ([t.infected.length] : List Nat).length = t.nDead.length + 1
        rw [e2]
        rfl
      have l2 : ({ t with nInfected := [t.infected.length] } : SimState).nInfected.length
          = ({ t with nInfected := [t.infected.length] } : SimState).nRecovered.length + 1 := by
        show ([t.infected.length] : List Nat).length = t.nRecovered.length + 1
        rw [e3]
        rfl
      have l3 : ({ t with nInfected := [t.infected.length] } : SimState).nInfected.head?
          = some start.length := by
        show ([t.infected.length] : List Nat).head? = some start.length
        rw [hinf]
        rfl
      obtain ⟨m1, m2, m3⟩ := runLoop_series fuel _ t2 hr l1 l2 l3
      rw [← hreq]
      exact ⟨m1, m2, m3⟩

theorem C10_series_misaligned_witness :
    ∃ r, SIR pathG [0] (22/10) 0 oneRng 5 = SIROut.done r ∧
      (r.n_infected.length = r.n_dead.length + 1 ∧
      r.n_infected.length = r.n_recovered.length + 1 ∧
      r.n_infected.head? = some ([0] : List Nat).length) := by
  cases h : SIR pathG [0] (22/10) 0 oneRng 5 with
  | done r =>
    exact ⟨r, rfl, C10_series_misaligned pathG [0] (22/10) 0 oneRng 5 r h⟩
  | seedError t =>
    have hs : (SIR pathG [0] (22/10) 0 oneRng 5).retOf.isSome = true := by decide
    rw [h] at hs
    simp [SIROut.retOf] at hs
  | crash =>
    have hs : (SIR pathG [0] (22/10) 0 oneRng 5).retOf.isSome = true := by decide
    rw [h] at hs
    simp [SIROut.retOf] at hs
  | timeout t =>
    have hs : (SIR pathG [0] (22/10) 0 oneRng 5).retOf.isSome = true := by decide
    rw [h] at hs
    simp [SIROut.retOf] at hs

end CoronaSIR
